import Mathlib

/-!
# Verification of the color-stuff palette optimization engine

This file is a shallow embedding, in Lean 4, of the palette-optimization
core of the repository: the fitness function `evaluatePaletteSolution`
(`optimization/fitness.ts`), the hill-climbing, simulated-annealing and
genetic optimizers (`optimization/algorithms/hillclimbing.ts`,
`simulatedannealing.ts`, `genetic.ts`, and the legacy
`optimizer/genetic-crossover.ts` and `optimizer/hill-climbing.ts`
variants), and the sequence (path) optimizer
(`optimization/algorithms/pathoptimizer.ts`).

Modelling conventions:

* JavaScript numbers are modelled by `JsVal`: finite values are exact
  rationals and the IEEE-754 special values `NaN`, `+Infinity`,
  `-Infinity` are explicit constructors.  Rounding of finite arithmetic
  is not modelled (finite arithmetic is exact over `ℚ`); no verified
  property depends on rounding.  `Math.sqrt` on a nonnegative finite
  value is modelled by `Rat.sqrt` (an approximation of the real square
  root); the verified properties depend only on whether the result is
  finite, never on its value.

* The external color model (the `chroma-js` library: `luminance()`,
  `lch()[1]`, `chroma.deltaE`, and the representation conversions done
  inside `toIColor`) is treated as an opaque environment `ColorEnv` of
  pure functions, exactly as the specification treats the Color Model as
  an external collaborator.  Theorems quantify over this environment
  where possible.

* Ambient randomness (`Math.random()` call sites) is modelled by
  explicit decision streams passed to each optimizer: every random draw
  in the source becomes one field of a decision record, so a theorem
  quantified over all decision streams covers every possible run.
  Parent selection in the genetic algorithms (`selectParentsByRank` /
  `selectParents`) and the offspring fill of the legacy GA is abstracted
  to oracle-chosen members of the current population: no verified claim
  concerns the selection distribution, only which structural pipeline
  the selected parents then flow through.

* `throw new Error(...)` sites are modelled with `Except String`.
-/

/-- Model of a JavaScript IEEE-754 double: finite values exactly as
rationals, plus explicit `NaN`, `+Infinity`, `-Infinity`. -/
inductive JsVal where
  | fin (q : ℚ)
  | posInf
  | negInf
  | nan
deriving DecidableEq, Repr

namespace JsVal

/-- JavaScript `+` on numbers (IEEE-754 addition, without rounding). -/
def add : JsVal → JsVal → JsVal
  | .nan, _ => .nan
  | _, .nan => .nan
  | .posInf, .negInf => .nan
  | .negInf, .posInf => .nan
  | .posInf, _ => .posInf
  | _, .posInf => .posInf
  | .negInf, _ => .negInf
  | _, .negInf => .negInf
  | .fin a, .fin b => .fin (a + b)

/-- JavaScript unary negation. -/
def neg : JsVal → JsVal
  | .fin a => .fin (-a)
  | .posInf => .negInf
  | .negInf => .posInf
  | .nan => .nan

/-- JavaScript `-` on numbers. -/
def sub (a b : JsVal) : JsVal := add a (neg b)

/-- JavaScript `*` on numbers. -/
def mul : JsVal → JsVal → JsVal
  | .nan, _ => .nan
  | _, .nan => .nan
  | .posInf, .posInf => .posInf
  | .posInf, .negInf => .negInf
  | .negInf, .posInf => .negInf
  | .negInf, .negInf => .posInf
  | .posInf, .fin b => if b = 0 then .nan else if 0 < b then .posInf else .negInf
  | .fin a, .posInf => if a = 0 then .nan else if 0 < a then .posInf else .negInf
  | .negInf, .fin b => if b = 0 then .nan else if 0 < b then .negInf else .posInf
  | .fin a, .negInf => if a = 0 then .nan else if 0 < a then .negInf else .posInf
  | .fin a, .fin b => .fin (a * b)

/-- JavaScript `/` on numbers (division by the unsigned model zero is
treated as division by `+0`). -/
def div : JsVal → JsVal → JsVal
  | .nan, _ => .nan
  | _, .nan => .nan
  | .posInf, .posInf => .nan
  | .posInf, .negInf => .nan
  | .negInf, .posInf => .nan
  | .negInf, .negInf => .nan
  | .posInf, .fin b => if 0 ≤ b then .posInf else .negInf
  | .negInf, .fin b => if 0 ≤ b then .negInf else .posInf
  | .fin _, .posInf => .fin 0
  | .fin _, .negInf => .fin 0
  | .fin a, .fin b =>
    if b = 0 then (if a = 0 then .nan else if 0 < a then .posInf else .negInf)
    else .fin (a / b)

/-- JavaScript `<` (any comparison involving `NaN` is `false`). -/
def lt : JsVal → JsVal → Bool
  | .fin a, .fin b => decide (a < b)
  | .fin _, .posInf => true
  | .negInf, .fin _ => true
  | .negInf, .posInf => true
  | _, _ => false

/-- JavaScript `<=` (any comparison involving `NaN` is `false`). -/
def le : JsVal → JsVal → Bool
  | .fin a, .fin b => decide (a ≤ b)
  | .fin _, .posInf => true
  | .negInf, .fin _ => true
  | .negInf, .posInf => true
  | .negInf, .negInf => true
  | .posInf, .posInf => true
  | _, _ => false

/-- JavaScript `>`. -/
def gt (a b : JsVal) : Bool := lt b a

/-- JavaScript `>=`. -/
def ge (a b : JsVal) : Bool := le b a

/-- `Math.min` (returns `NaN` if either argument is `NaN`). -/
def min : JsVal → JsVal → JsVal
  | .nan, _ => .nan
  | _, .nan => .nan
  | .negInf, _ => .negInf
  | _, .negInf => .negInf
  | .posInf, y => y
  | x, .posInf => x
  | .fin a, .fin b => .fin (Min.min a b)

/-- `Math.max` (returns `NaN` if either argument is `NaN`). -/
def max : JsVal → JsVal → JsVal
  | .nan, _ => .nan
  | _, .nan => .nan
  | .posInf, _ => .posInf
  | _, .posInf => .posInf
  | .negInf, y => y
  | x, .negInf => x
  | .fin a, .fin b => .fin (Max.max a b)

/-- JavaScript `isFinite`. -/
def isFiniteB : JsVal → Bool
  | .fin _ => true
  | _ => false

/-- JavaScript `isNaN`. -/
def isNaNB : JsVal → Bool
  | .nan => true
  | _ => false

/-- `Math.sqrt`.  On a nonnegative finite value the real square root is
approximated by `Rat.sqrt`; verified properties depend only on the
finite/`NaN`/infinite classification of the result. -/
def sqrt : JsVal → JsVal
  | .nan => .nan
  | .negInf => .nan
  | .posInf => .posInf
  | .fin q => if q < 0 then .nan else .fin (Rat.sqrt q)

end JsVal

/-- The cached derived representations stored on an `IColor` besides its
RGB channels (`hex`, CIELAB, OkLab, alpha), as computed by the external
chroma-js conversions inside `toIColor`. -/
structure Derived where
  hex : String
  lab : ℚ × ℚ × ℚ
  oklab : ℚ × ℚ × ℚ
  alpha : ℚ
deriving DecidableEq, Repr

/-- The repository's `IColor`: RGB channels (integers 0–255 for all
colors produced by `toIColor`) plus the cached derived representations. -/
structure IColor where
  r : ℤ
  g : ℤ
  b : ℤ
  derived : Derived
deriving DecidableEq, Repr

/-- The external color model (chroma-js), consumed as opaque pure
functions, as in the specification's system overview. -/
structure ColorEnv where
  /-- the conversions chroma-js performs inside `toIColor` to fill the
  cached representations from the RGB channels -/
  mkDerived : ℤ → ℤ → ℤ → Derived
  /-- `fromIColor(c).luminance()` — WCAG relative luminance -/
  luminance : IColor → JsVal
  /-- `fromIColor(c).lch()[1]` — LCH chroma -/
  lchChroma : IColor → JsVal
  /-- `chroma.deltaE(a, b)` — CIEDE2000 perceptual distance -/
  deltaE : IColor → IColor → JsVal
  /-- `chroma.deltaE` on color strings (path optimizer); `none` models a
  thrown parse error, in which case the source skips the edge -/
  deltaEStr : String → String → Option JsVal

/-- `toIColor([r, g, b])` (`core/conversions.ts`): builds a fresh
`IColor` from RGB channels, recomputing every derived representation. -/
def toIColor (env : ColorEnv) (r g b : ℤ) : IColor :=
  ⟨r, g, b, env.mkDerived r g b⟩

/-- `clamp` (`utils/math.ts`) on the integer channel values it is applied
to in the optimizers (`min ≤ max` always holds at those call sites). -/
def clampZ (value lo hi : ℤ) : ℤ := Max.max lo (Min.min value hi)

/-- `getContrastRatio` (`accessibility/contrast.ts`):
`(max(l1,l2) + 0.05) / (min(l1,l2) + 0.05)`. -/
def getContrastRatio (env : ColorEnv) (fgColor bgColor : IColor) : JsVal :=
  let lum1 := env.luminance fgColor
  let lum2 := env.luminance bgColor
  let brighter := JsVal.max lum1 lum2
  let darker := JsVal.min lum1 lum2
  JsVal.div (JsVal.add brighter (.fin (1/20))) (JsVal.add darker (.fin (1/20)))

/-- The `rewardHarmony` reward curve inside `evaluatePaletteSolution`
(`optimization/fitness.ts`). -/
def rewardHarmony (ratio : JsVal) : JsVal :=
  if JsVal.lt ratio (.fin (3/2)) then .fin (-2)
  else if JsVal.lt ratio (.fin 3) then .fin 1
  else if JsVal.lt ratio (.fin 7) then .fin 2
  else if JsVal.lt ratio (.fin 10) then .fin 1
  else .fin 0

/-- The ordered `i < j` pairs of a list, in the enumeration order of the
fitness function's nested loops. -/
def ltPairs {α : Type} : List α → List (α × α)
  | [] => []
  | x :: xs => (xs.map (fun y => (x, y))) ++ ltPairs xs

/-- The `minDeltaE` computation of `evaluatePaletteSolution`: `Math.min`
over `colorDifference` of all `i < j` pairs, starting from `Infinity`. -/
def minPairwiseDeltaE (env : ColorEnv) (palette : List IColor) : JsVal :=
  (ltPairs palette).foldl (fun acc p => JsVal.min acc (env.deltaE p.1 p.2)) .posInf

/-- The final check of `evaluatePaletteSolution`:
`if (isNaN(fitness) || !isFinite(fitness)) return -Infinity`. -/
def finalCheck (fitness : JsVal) : JsVal :=
  if JsVal.isNaNB fitness || ! JsVal.isFiniteB fitness then .negInf else fitness

/-- `evaluatePaletteSolution` (`optimization/fitness.ts`).  The palette is
`[accent, background, surface, buttonText, mainText]`; any other length
is invalid and yields `-Infinity`.  (The source's additional
`!color || !color.rgb` guard is unrepresentable here: every `IColor`
value is well-formed by construction.) -/
def evaluatePaletteSolution (env : ColorEnv) (primaryColor : IColor)
    (palette : List IColor) : JsVal :=
  match palette with
  | [accentColor, backgroundColor, surfaceColor, buttonText, mainText] =>
    let wTextContrast : JsVal := .fin 2
    let wUiContrast : JsVal := .fin (3/2)
    let wHarmonyContrast : JsVal := .fin 1
    let wBgQuality : JsVal := .fin 1
    let wMinDeltaE : JsVal := .fin (1/2)
    -- 1. Text contrast
    let contrastPrimaryButton := getContrastRatio env buttonText primaryColor
    let contrastAccentButton := getContrastRatio env buttonText accentColor
    let f1 := JsVal.add (.fin 0)
      (JsVal.mul wTextContrast
        (JsVal.add (JsVal.min contrastPrimaryButton (.fin 7))
          (JsVal.min contrastAccentButton (.fin 7))))
    let contrastMainSurface := getContrastRatio env mainText surfaceColor
    let f2 := JsVal.add f1
      (JsVal.mul (JsVal.mul wTextContrast (.fin 2))
        (JsVal.min contrastMainSurface (.fin 7)))
    -- 2. UI element contrast
    let contrastPrimarySurface := getContrastRatio env primaryColor surfaceColor
    let contrastAccentSurface := getContrastRatio env accentColor surfaceColor
    let contrastBgSurface := getContrastRatio env backgroundColor surfaceColor
    let f3 := JsVal.add f2
      (JsVal.mul wUiContrast
        (JsVal.add (JsVal.min contrastPrimarySurface (.fin (9/2)))
          (JsVal.min contrastAccentSurface (.fin (9/2)))))
    let f4 := JsVal.add f3
      (JsVal.mul wUiContrast (JsVal.min contrastBgSurface (.fin 3)))
    -- 3. Harmony / separation contrast
    let contrastPrimaryAccent := getContrastRatio env primaryColor accentColor
    let contrastPrimaryBg := getContrastRatio env primaryColor backgroundColor
    let contrastAccentBg := getContrastRatio env accentColor backgroundColor
    let f5 := JsVal.add f4
      (JsVal.mul wHarmonyContrast
        (JsVal.add
          (JsVal.add (rewardHarmony contrastPrimaryAccent)
            (rewardHarmony contrastPrimaryBg))
          (rewardHarmony contrastAccentBg)))
    -- 4. Background quality
    let bgLuminance := env.luminance backgroundColor
    let bgIsMonotone : Bool :=
      backgroundColor.r = backgroundColor.g ∧ backgroundColor.g = backgroundColor.b
    let bgChroma := env.lchChroma backgroundColor
    let f6 :=
      if JsVal.lt bgLuminance (.fin (1/10)) || JsVal.gt bgLuminance (.fin (9/10)) then
        JsVal.sub f5 (JsVal.mul wBgQuality (.fin 2))
      else f5
    let f7 :=
      if bgIsMonotone || JsVal.lt bgChroma (.fin 5) then
        JsVal.sub f6 (JsVal.mul wBgQuality (.fin 1))
      else JsVal.add f6 (JsVal.mul wBgQuality (.fin 1))
    -- 5. Minimum perceptual distance
    let minDeltaE := minPairwiseDeltaE env palette
    let f8 :=
      if JsVal.lt minDeltaE (.fin 10) then
        JsVal.sub f7 (JsVal.mul wMinDeltaE (JsVal.sub (.fin 10) minDeltaE))
      else JsVal.add f7 (JsVal.mul wMinDeltaE (.fin 2))
    -- Final check
    finalCheck f8
  | _ => .negInf

/-- The RGB channel a `Move` modifies. -/
inductive Channel where
  | r | g | b
deriving DecidableEq, Repr

/-- A `Move` (`optimization/optimization.types.ts`): one candidate
single-channel perturbation. -/
structure Move where
  paletteIndex : ℕ
  channel : Channel
  change : ℤ
deriving DecidableEq, Repr

/-- The moves `computeNeighbourMoves` pushes for one palette color. -/
def movesForColor (index : ℕ) (c : IColor) (step : ℤ) : List Move :=
  (if c.r < 255 then [⟨index, .r, step⟩] else []) ++
  (if 0 < c.r then [⟨index, .r, -step⟩] else []) ++
  (if c.g < 255 then [⟨index, .g, step⟩] else []) ++
  (if 0 < c.g then [⟨index, .g, -step⟩] else []) ++
  (if c.b < 255 then [⟨index, .b, step⟩] else []) ++
  (if 0 < c.b then [⟨index, .b, -step⟩] else [])

/-- `computeNeighbourMoves` (`optimization/algorithms/hillclimbing.ts`):
for each color and channel, a `+step` move whenever the channel is below
255 and a `-step` move whenever it is above 0. -/
def computeNeighbourMoves (palette : List IColor) (step : ℤ) : List Move :=
  (palette.enum.map (fun p => movesForColor p.1 p.2 step)).join

/-- `computeNeighbourMovesSA` (`simulatedannealing.ts`) is textually the
same function as `computeNeighbourMoves`. -/
def computeNeighbourMovesSA (palette : List IColor) (step : ℤ) : List Move :=
  computeNeighbourMoves palette step

/-- The moves the legacy `optimizer/hill-climbing.ts` variant of
`computeNeighbourMoves` pushes for one color: `+step` only when the
channel is below `255 - step`, `-step` only when it is above `step`. -/
def movesForColorHC (index : ℕ) (c : IColor) (step : ℤ) : List Move :=
  (if c.r < 255 - step then [⟨index, .r, step⟩] else []) ++
  (if step < c.r then [⟨index, .r, -step⟩] else []) ++
  (if c.g < 255 - step then [⟨index, .g, step⟩] else []) ++
  (if step < c.g then [⟨index, .g, -step⟩] else []) ++
  (if c.b < 255 - step then [⟨index, .b, step⟩] else []) ++
  (if step < c.b then [⟨index, .b, -step⟩] else [])

/-- `computeNeighbourMoves` of the legacy `optimizer/hill-climbing.ts`. -/
def computeNeighbourMovesHC (palette : List IColor) (step : ℤ) : List Move :=
  (palette.enum.map (fun p => movesForColorHC p.1 p.2 step)).join

/-- The clamped RGB triple `applyMove` computes for the modified color. -/
def moveRgb (c : IColor) (m : Move) : ℤ × ℤ × ℤ :=
  match m.channel with
  | .r => (clampZ (c.r + m.change) 0 255, c.g, c.b)
  | .g => (c.r, clampZ (c.g + m.change) 0 255, c.b)
  | .b => (c.r, c.g, clampZ (c.b + m.change) 0 255)

/-- `applyMove` (`optimization/algorithms/hillclimbing.ts`): clamp the
changed channel into [0,255] and rebuild the modified color wholesale
with `toIColor`.  (An out-of-range `paletteIndex` never occurs for
generated moves; the model leaves the palette unchanged there.) -/
def applyMove (env : ColorEnv) (palette : List IColor) (m : Move) : List IColor :=
  match palette.get? m.paletteIndex with
  | none => palette
  | some c =>
    let rgb' := moveRgb c m
    palette.set m.paletteIndex (toIColor env rgb'.1 rgb'.2.1 rgb'.2.2)

/-- `applyMoveSA` (`simulatedannealing.ts`) is textually the same
function as `applyMove`. -/
def applyMoveSA (env : ColorEnv) (palette : List IColor) (m : Move) : List IColor :=
  applyMove env palette m

/-- Result record of `hillClimbingOptimization`. -/
structure HCResult where
  solution : List IColor
  fitness : JsVal
  iterations : ℕ
  fitnessHistory : List JsVal
deriving Repr

/-- The body of the steepest-ascent neighbour scan of one hill-climbing
iteration: walk the move list keeping the best strictly improving finite
neighbour found so far. -/
def bestNeighbourGo (env : ColorEnv) (primary : IColor) (current : List IColor) :
    List Move → Option (List IColor) × JsVal → Option (List IColor) × JsVal
  | [], acc => acc
  | move :: rest, acc =>
    let sol := applyMove env current move
    let f := evaluatePaletteSolution env primary sol
    bestNeighbourGo env primary current rest
      (if JsVal.isFiniteB f && JsVal.lt acc.2 f then (some sol, f) else acc)

/-- The steepest-ascent neighbour scan of one hill-climbing iteration
(`bestNeighbourFitness` starts at the current fitness, and a neighbour is
kept only when finite and strictly greater). -/
def bestNeighbour (env : ColorEnv) (primary : IColor) (current : List IColor)
    (currentFitness : JsVal) (moves : List Move) : Option (List IColor) × JsVal :=
  bestNeighbourGo env primary current moves (none, currentFitness)

/-- The iteration loop of `hillClimbingOptimization`
(`optimization/algorithms/hillclimbing.ts`), by fuel on the remaining
iterations; `break` (patience exhausted) returns the loop variable
before its increment, exactly as the source `for` loop does. -/
def hcLoop (env : ColorEnv) (primary : IColor) (step : ℤ) (patience : ℕ) :
    ℕ → ℕ → List IColor → JsVal → ℕ → List JsVal → HCResult
  | 0, iteration, cur, cf, _, hist => ⟨cur, cf, iteration, hist⟩
  | fuel + 1, iteration, cur, cf, counter, hist =>
    let moves := computeNeighbourMoves cur step
    let scan := bestNeighbour env primary cur cf moves
    match scan.1 with
    | some sol => hcLoop env primary step patience fuel (iteration + 1) sol scan.2 0
        (hist ++ [scan.2])
    | none =>
      let counter' := counter + 1
      let hist' := hist ++ [cf]
      if patience ≤ counter' then ⟨cur, cf, iteration, hist'⟩
      else hcLoop env primary step patience fuel (iteration + 1) cur cf counter' hist'

/-- `hillClimbingOptimization` (`optimization/algorithms/hillclimbing.ts`). -/
def hillClimbingOptimization (env : ColorEnv) (primaryColor : IColor)
    (initialSolution : List IColor) (maxIterations patience : ℕ) (neighbourStep : ℤ) :
    Except String HCResult :=
  if initialSolution.length ≠ 5 then
    .error "Hill Climbing requires an initial palette of 5 IColor objects."
  else
    let currentFitness := evaluatePaletteSolution env primaryColor initialSolution
    if ! JsVal.isFiniteB currentFitness then
      .ok ⟨initialSolution, .negInf, 0, [.negInf]⟩
    else
      .ok (hcLoop env primaryColor neighbourStep patience maxIterations 0
        initialSolution currentFitness 0 [currentFitness])

/-- One iteration's random draws in simulated annealing: the neighbour
pick (`Math.floor(Math.random() * moves.length)`) and the outcome of the
Metropolis coin (`Math.random() < exp(delta / temperature)`). -/
structure SADecision where
  moveIdx : ℕ
  accept : Bool

/-- Result record of `simulatedAnnealingOptimization`. -/
structure SAResult where
  solution : List IColor
  fitness : JsVal
  iterations : ℕ
  fitnessHistory : List JsVal
  temperatureHistory : List ℚ
deriving Repr

/-- The iteration loop of `simulatedAnnealingOptimization`
(`optimization/algorithms/simulatedannealing.ts`): the loop guard is
`iteration < maxIterations && temperature > minTemperature`; an empty
neighbour list breaks; a non-finite neighbour is skipped but still logs
history and cools; otherwise the neighbour is accepted when strictly
better, or according to the Metropolis coin supplied by the decision
stream. -/
def saLoop (env : ColorEnv) (primary : IColor) (step : ℤ)
    (coolingRate minTemperature : ℚ) (decisions : ℕ → SADecision) :
    ℕ → ℕ → List IColor → JsVal → List IColor → JsVal → ℚ →
    List JsVal → List ℚ → SAResult
  | 0, iteration, _, _, best, bf, _, fhist, thist => ⟨best, bf, iteration, fhist, thist⟩
  | fuel + 1, iteration, cur, cf, best, bf, temp, fhist, thist =>
    if ¬ (minTemperature < temp) then ⟨best, bf, iteration, fhist, thist⟩
    else
      let moves := computeNeighbourMovesSA cur step
      if hm : moves.length = 0 then ⟨best, bf, iteration, fhist, thist⟩
      else
        let d := decisions iteration
        let randomMove := moves.get ⟨d.moveIdx % moves.length, Nat.mod_lt _ (Nat.pos_of_ne_zero hm)⟩
        let neighbourSolution := applyMoveSA env cur randomMove
        let neighbourFitness := evaluatePaletteSolution env primary neighbourSolution
        if ! JsVal.isFiniteB neighbourFitness then
          saLoop env primary step coolingRate minTemperature decisions fuel
            (iteration + 1) cur cf best bf (temp * coolingRate)
            (fhist ++ [cf]) (thist ++ [temp])
        else
          let acceptMove :=
            JsVal.lt (.fin 0) (JsVal.sub neighbourFitness cf) || d.accept
          let cur' := if acceptMove then neighbourSolution else cur
          let cf' := if acceptMove then neighbourFitness else cf
          let improved := acceptMove && JsVal.lt bf cf'
          let best' := if improved then cur' else best
          let bf' := if improved then cf' else bf
          saLoop env primary step coolingRate minTemperature decisions fuel
            (iteration + 1) cur' cf' best' bf' (temp * coolingRate)
            (fhist ++ [cf']) (thist ++ [temp])

/-- `simulatedAnnealingOptimization`
(`optimization/algorithms/simulatedannealing.ts`). -/
def simulatedAnnealingOptimization (env : ColorEnv) (primaryColor : IColor)
    (initialSolution : List IColor) (maxIterations : ℕ)
    (initialTemperature coolingRate minTemperature : ℚ) (neighbourStep : ℤ)
    (decisions : ℕ → SADecision) : Except String SAResult :=
  if initialSolution.length ≠ 5 then
    .error "Simulated Annealing requires an initial palette of 5 IColor objects."
  else
    let currentFitness := evaluatePaletteSolution env primaryColor initialSolution
    if ! JsVal.isFiniteB currentFitness then
      .ok ⟨initialSolution, .negInf, 0, [.negInf], [initialTemperature]⟩
    else
      .ok (saLoop env primaryColor neighbourStep coolingRate minTemperature decisions
        maxIterations 0 initialSolution currentFitness initialSolution currentFitness
        initialTemperature [currentFitness] [initialTemperature])

/-- `CrossoverOperation` (`optimization/optimization.types.ts`). -/
inductive CrossoverOperation where
  | onePoint | twoPoint | block | uniform | shuffle
deriving DecidableEq, Repr

/-- `randomInt(min, max)` (`utils/math.ts`) yields a uniform integer in
`[min, max]`; the raw draw is modelled by a natural number `n` mapped
into the range (for `max < min`, never reached at the modelled call
sites, the model returns `min`). -/
def randomIntO (n : ℕ) (lo hi : ℤ) : ℤ :=
  if hi < lo then lo else lo + Int.ofNat (n % (hi - lo + 1).toNat)

/-- `Individual` (`optimization/optimization.types.ts`): a palette with
its cached fitness. -/
structure Individual where
  solution : List IColor
  fitness : JsVal
deriving Repr

/-- The random draws of one `performCrossoverAndMutation` crossover
section: the crossover-probability roll, the per-position coins of
uniform crossover, the two `randomInt` point draws, and the Fisher–Yates
draws of the two shuffled sections. -/
structure CrossDecisions where
  crossRoll : ℚ
  uniformSwap : ℕ → Bool
  pointA : ℕ
  pointB : ℕ
  shuffleJs1 : ℕ → ℕ
  shuffleJs2 : ℕ → ℕ

/-- The random draws of one `mutatePalette` pass: per-gene mutation roll
(`Math.random() * 100`), mutation-type roll (`Math.random()`), the three
per-channel jitter draws, and the reset channel/value draws. -/
structure MutDecisions where
  mutRoll : ℕ → ℚ
  typeRoll : ℕ → ℚ
  jitterR : ℕ → ℕ
  jitterG : ℕ → ℕ
  jitterB : ℕ → ℕ
  resetChannel : ℕ → ℕ
  resetValue : ℕ → ℕ

/-- The random draws of one full `performCrossoverAndMutation` call. -/
structure CMDecisions where
  cross : CrossDecisions
  mut1 : MutDecisions
  mut2 : MutDecisions

/-- The position-wise swap loop of uniform crossover: at each index the
coin decides whether the two offspring exchange that gene. -/
def uniformCross {α : Type} (coin : ℕ → Bool) :
    ℕ → List α → List α → List α × List α
  | _, [], ys => ([], ys)
  | _, xs, [] => (xs, [])
  | i, x :: xs, y :: ys =>
    let rest := uniformCross coin (i + 1) xs ys
    if coin i then (y :: rest.1, x :: rest.2) else (x :: rest.1, y :: rest.2)

/-- Swap the entries at indices `i` and `j` (the JavaScript
`[a[i], a[j]] = [a[j], a[i]]` idiom; out-of-range indices never occur at
the modelled call sites). -/
def listSwap {α : Type} (l : List α) (i j : ℕ) : List α :=
  match l.get? i, l.get? j with
  | some a, some b => (l.set i b).set j a
  | _, _ => l

/-- The Fisher–Yates loop body: swaps run from index `i` down to index 1,
each with a partner `js i % (i + 1)` drawn in `[0, i]`. -/
def fyGo {α : Type} (js : ℕ → ℕ) : List α → ℕ → List α
  | arr, 0 => arr
  | arr, i + 1 => fyGo js (listSwap arr (i + 1) (js (i + 1) % (i + 2))) i

/-- The Fisher–Yates (Knuth) shuffle as written in the crossover
`shuffle` case. -/
def fyShuffle {α : Type} (js : ℕ → ℕ) (l : List α) : List α :=
  fyGo js l (l.length - 1)

/-- The block-swap write loop of `block` crossover: writes `block2` into
offspring 1 and `block1` into offspring 2 starting at `start`. -/
def blockSwapGo {α : Type} : ℕ → List α → List α → List α → List α → List α × List α
  | s, b1 :: bs1, b2 :: bs2, t1, t2 =>
    blockSwapGo (s + 1) bs1 bs2 (t1.set s b2) (t2.set s b1)
  | _, _, _, t1, t2 => (t1, t2)

/-- The crossover section of `performCrossoverAndMutation`
(`optimization/algorithms/genetic.ts`), producing the two offspring
*before mutation*.  Offspring start as (value) copies of the parents;
the crossover runs only when the probability roll succeeds and the
palette has more than one gene. -/
def crossoverOffspring (op : CrossoverOperation) (d : CrossDecisions)
    (crossoverProbability : ℚ) (parent1 parent2 : List IColor) :
    List IColor × List IColor :=
  let offspring1 := parent1
  let offspring2 := parent2
  let paletteLength := parent1.length
  if d.crossRoll * 100 < crossoverProbability ∧ 1 < paletteLength then
    match op with
    | .uniform => uniformCross d.uniformSwap 0 offspring1 offspring2
    | .onePoint =>
      let point := (randomIntO d.pointA 1 (paletteLength - 1)).toNat
      (offspring1.take point ++ offspring2.drop point,
       offspring2.take point ++ offspring1.drop point)
    | .twoPoint =>
      if paletteLength < 3 then (offspring1, offspring2)
      else
        let point1 := (randomIntO d.pointA 1 (paletteLength - 2)).toNat
        let point2 := (randomIntO d.pointB (point1 + 1) (paletteLength - 1)).toNat
        (offspring1.take point1 ++ ((offspring2.drop point1).take (point2 - point1)) ++
          offspring1.drop point2,
         offspring2.take point1 ++ ((offspring1.drop point1).take (point2 - point1)) ++
          offspring2.drop point2)
    | .block =>
      let start := (randomIntO d.pointA 0 (paletteLength - 1)).toNat
      let stop := (randomIntO d.pointB start (paletteLength - 1)).toNat
      let block1 := (offspring1.drop start).take (stop + 1 - start)
      let block2 := (offspring2.drop start).take (stop + 1 - start)
      blockSwapGo start block1 block2 offspring1 offspring2
    | .shuffle =>
      if paletteLength < 3 then (offspring1, offspring2)
      else
        let point1 := (randomIntO d.pointA 0 (paletteLength - 2)).toNat
        let point2 := (randomIntO d.pointB (point1 + 1) (paletteLength - 1)).toNat
        let section1 := (parent1.drop point1).take (point2 + 1 - point1)
        let section2 := (parent2.drop point1).take (point2 + 1 - point1)
        (parent1.take point1 ++ fyShuffle d.shuffleJs1 section1 ++ parent1.drop (point2 + 1),
         parent2.take point1 ++ fyShuffle d.shuffleJs2 section2 ++ parent2.drop (point2 + 1))
  else (offspring1, offspring2)

/-- The per-color body of `mutatePalette`: with probability
`mutationProbability`%, either jitter all three channels by
`randomInt(-mutationAmount, mutationAmount)` each (70 %) or reset one
random channel entirely (30 %); the mutated color is rebuilt with
`toIColor`. -/
def mutateColor (env : ColorEnv) (mutationProbability : ℚ) (mutationAmount : ℤ)
    (d : MutDecisions) (i : ℕ) (color : IColor) : IColor :=
  if d.mutRoll i * 100 < mutationProbability then
    if d.typeRoll i < 7/10 then
      toIColor env
        (clampZ (color.r + randomIntO (d.jitterR i) (-mutationAmount) mutationAmount) 0 255)
        (clampZ (color.g + randomIntO (d.jitterG i) (-mutationAmount) mutationAmount) 0 255)
        (clampZ (color.b + randomIntO (d.jitterB i) (-mutationAmount) mutationAmount) 0 255)
    else
      let channel := randomIntO (d.resetChannel i) 0 2
      let v := randomIntO (d.resetValue i) 0 255
      if channel = 0 then toIColor env v color.g color.b
      else if channel = 1 then toIColor env color.r v color.b
      else toIColor env color.r color.g v
  else color

/-- `mutatePalette` inside `performCrossoverAndMutation`. -/
def mutatePalette (env : ColorEnv) (mutationProbability : ℚ) (mutationAmount : ℤ)
    (d : MutDecisions) (palette : List IColor) : List IColor :=
  palette.enum.map (fun p => mutateColor env mutationProbability mutationAmount d p.1 p.2)

/-- `performCrossoverAndMutation` (`optimization/algorithms/genetic.ts`). -/
def performCrossoverAndMutation (env : ColorEnv) (op : CrossoverOperation)
    (d : CMDecisions) (crossoverProbability mutationProbability : ℚ)
    (mutationAmount : ℤ) (parent1 parent2 : List IColor) :
    List IColor × List IColor :=
  let offspring := crossoverOffspring op d.cross crossoverProbability parent1 parent2
  (mutatePalette env mutationProbability mutationAmount d.mut1 offspring.1,
   mutatePalette env mutationProbability mutationAmount d.mut2 offspring.2)

/-- Stable insertion sort by fitness descending, modelling the ES2019+
stable `population.sort((a, b) => b.fitness - a.fitness)` (a `NaN`
comparator value — only possible for two `-Infinity` fitnesses — is
treated as "equal" by the JS sort, which `JsVal.ge`'s
`-Infinity ≥ -Infinity = true` reproduces). -/
def insertByFitness (ind : Individual) : List Individual → List Individual
  | [] => [ind]
  | x :: xs =>
    if JsVal.ge x.fitness ind.fitness then x :: insertByFitness ind xs
    else ind :: x :: xs

/-- Sort a population by fitness descending (stable). -/
def sortByFitnessDesc (population : List Individual) : List Individual :=
  population.foldr insertByFitness []

/-- The per-generation random draws of `geneticCrossoverOptimization`:
for each offspring-pair draw `k`, the two selected parent indices
(parent selection abstracted to an oracle choice, see the header) and
the crossover/mutation draws. -/
structure GADecisions where
  parentIdx : ℕ → ℕ × ℕ
  cm : ℕ → CMDecisions

/-- Result record of `geneticCrossoverOptimization`. -/
structure GAResult where
  population : List (List IColor)
  bestPalette : List IColor
  bestFitness : JsVal
  iterations : ℕ
  fitnessHistory : List (List JsVal)
deriving Repr

/-- The `forEach` best-ever update of `geneticCrossoverOptimization`: an
individual replaces the best only when its fitness is finite and
strictly greater. -/
def updateBest (population : List Individual) (best : Individual) : Individual :=
  population.foldl
    (fun b ind =>
      if JsVal.isFiniteB ind.fitness && JsVal.lt b.fitness ind.fitness then ind else b)
    best

/-- The value-level shadow of `updateBest`, used to reconstruct the
best-ever fitness from the recorded history. -/
def updBestVal (evals : List JsVal) (b : JsVal) : JsVal :=
  evals.foldl
    (fun b f => if JsVal.isFiniteB f && JsVal.lt b f then f else b) b

/-- The initial best-ever scan (`!bestOverallIndividual || ...`): the
first individual seeds the best unconditionally, the rest update it. -/
def initBest (population : List Individual) : Individual :=
  match population with
  | [] => ⟨[], .negInf⟩
  | i0 :: rest => updateBest rest i0

/-- The average of the finite fitness values of a generation, exactly as
computed by the termination check (`-Infinity` when none is finite). -/
def gaAvgFitness (evals : List JsVal) : JsVal :=
  let validEvals := evals.filter (fun v => JsVal.isFiniteB v)
  if 0 < validEvals.length then
    JsVal.div (validEvals.foldl JsVal.add (.fin 0)) (.fin validEvals.length)
  else .negInf

/-- The early-termination condition of `geneticCrossoverOptimization`
(`genetic.ts`): average finite fitness at least `thresholdFitness`, or
best-ever fitness at least `thresholdFitness * 1.1`. -/
def gaTermCond (thresholdFitness : ℚ) (bestFit : JsVal) (evals : List JsVal) : Bool :=
  (JsVal.isFiniteB (gaAvgFitness evals) && JsVal.ge (gaAvgFitness evals) (.fin thresholdFitness)) ||
  (JsVal.isFiniteB bestFit && JsVal.ge bestFit (.fin (thresholdFitness * (11/10))))

/-- The fill phase of one generation: selection, crossover and mutation
until the next population reaches `populationSize` (processing the
remaining-slot count; an odd final slot takes only the first
offspring). -/
def fillOffspring (env : ColorEnv) (primary : IColor) (op : CrossoverOperation)
    (crossoverProbability mutationProbability : ℚ) (mutationAmount : ℤ)
    (population : List Individual) (d : GADecisions) :
    ℕ → ℕ → List Individual
  | 0, _ => []
  | need + 1, k =>
    let idx := d.parentIdx k
    let parent1 := (population.getD (idx.1 % population.length) ⟨[], .negInf⟩).solution
    let parent2 := (population.getD (idx.2 % population.length) ⟨[], .negInf⟩).solution
    let offspring := performCrossoverAndMutation env op (d.cm k)
      crossoverProbability mutationProbability mutationAmount parent1 parent2
    let ind1 : Individual := ⟨offspring.1, evaluatePaletteSolution env primary offspring.1⟩
    match need with
    | 0 => [ind1]
    | need' + 1 =>
      let ind2 : Individual := ⟨offspring.2, evaluatePaletteSolution env primary offspring.2⟩
      ind1 :: ind2 :: fillOffspring env primary op crossoverProbability
        mutationProbability mutationAmount population d need' (k + 1)

/-- One generation replacement: elitism (top `elitismCount` by fitness,
finite only, carried over unchanged) plus selection/crossover/mutation
offspring. -/
def nextGeneration (env : ColorEnv) (primary : IColor) (op : CrossoverOperation)
    (crossoverProbability mutationProbability : ℚ) (mutationAmount : ℤ)
    (elitismCount populationSize : ℕ) (population : List Individual)
    (d : GADecisions) : List Individual :=
  let sorted := if 0 < elitismCount then sortByFitnessDesc population else population
  let elite :=
    if 0 < elitismCount then
      ((sorted.take (Min.min elitismCount populationSize)).filter
        (fun ind => JsVal.isFiniteB ind.fitness))
    else []
  elite ++ fillOffspring env primary op crossoverProbability mutationProbability
    mutationAmount sorted d (populationSize - elite.length) 0

/-- The generation loop of `geneticCrossoverOptimization` (`genetic.ts`):
push the generation's fitness vector, update the best-ever individual,
check the two termination conditions, otherwise build the next
generation.  Returns the state needed by the post-loop final update. -/
def gaLoop (env : ColorEnv) (primary : IColor) (op : CrossoverOperation)
    (crossoverProbability mutationProbability : ℚ) (mutationAmount : ℤ)
    (thresholdFitness : ℚ) (elitismCount populationSize : ℕ)
    (decisions : ℕ → GADecisions) :
    ℕ → ℕ → List Individual → Individual → List (List JsVal) →
    ℕ × List Individual × Individual × List (List JsVal)
  | 0, iteration, pop, best, hist => (iteration, pop, best, hist)
  | fuel + 1, iteration, pop, best, hist =>
    let currentEvals := pop.map (fun ind => ind.fitness)
    let hist' := hist ++ [currentEvals]
    let best' := updateBest pop best
    if gaTermCond thresholdFitness best'.fitness currentEvals then
      (iteration, pop, best', hist')
    else
      let pop' := nextGeneration env primary op crossoverProbability
        mutationProbability mutationAmount elitismCount populationSize pop
        (decisions iteration)
      gaLoop env primary op crossoverProbability mutationProbability mutationAmount
        thresholdFitness elitismCount populationSize decisions fuel
        (iteration + 1) pop' best' hist'

/-- `geneticCrossoverOptimization` (`optimization/algorithms/genetic.ts`). -/
def geneticCrossoverOptimization (env : ColorEnv) (primaryColor : IColor)
    (initialSolution : List (List IColor)) (maxIterations : ℕ)
    (crossoverProbability mutationProbability : ℚ) (mutationAmount : ℤ)
    (thresholdFitness : ℚ) (op : CrossoverOperation) (elitismCount : ℕ)
    (decisions : ℕ → GADecisions) : Except String GAResult :=
  if initialSolution.length < 2 then
    .error "Initial solution for GA must be an array (population) of at least two palettes."
  else
    let populationSize := initialSolution.length
    let population : List Individual := initialSolution.map
      (fun palette => ⟨palette, evaluatePaletteSolution env primaryColor palette⟩)
    let best0 := initBest population
    let result := gaLoop env primaryColor op crossoverProbability mutationProbability
      mutationAmount thresholdFitness elitismCount populationSize decisions
      maxIterations 0 population best0 []
    let finalBest := updateBest result.2.1 result.2.2.1
    .ok ⟨result.2.1.map (fun ind => ind.solution), finalBest.solution,
      finalBest.fitness, result.1, result.2.2.2⟩

/-- The best-ever fitness seeded from the initial population, as
reconstructible input to `gaBestThrough`. -/
def initBestFit (env : ColorEnv) (primary : IColor)
    (initialSolution : List (List IColor)) : JsVal :=
  (initBest (initialSolution.map
    (fun palette => ⟨palette, evaluatePaletteSolution env primary palette⟩))).fitness

/-- The best-ever fitness after folding the recorded generations of a
history prefix over a seed, mirroring the loop's best-update. -/
def bestThroughPrefix (b0 : JsVal) (hist : List (List JsVal)) : JsVal :=
  hist.foldl (fun b ev => updBestVal ev b) b0

/-- The termination check of the *legacy*
`optimizer/genetic-crossover.ts` variant: average finite fitness
(denominator `validEvals.length || 1`) at least `thresholdFitness`, or
best-ever fitness strictly above the fixed constant 100. -/
def legacyGaTermCond (thresholdFitness : ℚ) (bestFit : JsVal) (evals : List JsVal) : Bool :=
  let validEvals := evals.filter (fun v => JsVal.isFiniteB v)
  let avgFitness := JsVal.div (validEvals.foldl JsVal.add (.fin 0))
    (.fin (Max.max validEvals.length 1))
  (JsVal.isFiniteB avgFitness && JsVal.ge avgFitness (.fin thresholdFitness)) ||
  JsVal.gt bestFit (.fin 100)

/-- The per-generation scan of the legacy GA for the best individual of
the current generation: index and fitness of the strictly greatest
evaluation (`-1` modelled as `none`). -/
def legacyCurrentBest (evals : List JsVal) : Option ℕ × JsVal :=
  (evals.foldl
    (fun acc f =>
      if JsVal.gt f acc.2.2 then (acc.1 + 1, some acc.1, f) else (acc.1 + 1, acc.2))
    ((0 : ℕ), (none, .negInf))).2

/-- The generation loop of the legacy `optimizer/genetic-crossover.ts`
`geneticCrossoverOptimization`: fitness is recomputed from the palettes
each generation; elitism keeps the current generation's best palette
(falling back to the first); the offspring fill is abstracted to an
oracle stream of palettes (its construction is irrelevant to every
verified claim about this variant). -/
def legacyGaLoop (env : ColorEnv) (primary : IColor) (thresholdFitness : ℚ)
    (fillPalettes : ℕ → List (List IColor)) :
    ℕ → ℕ → List (List IColor) → List IColor → JsVal → List (List JsVal) →
    ℕ × List (List IColor) × (List IColor × JsVal) × List (List JsVal)
  | 0, iteration, pop, bestPal, bestFit, hist => (iteration, pop, (bestPal, bestFit), hist)
  | fuel + 1, iteration, pop, bestPal, bestFit, hist =>
    let populationEvals := pop.map (fun p => evaluatePaletteSolution env primary p)
    let hist' := hist ++ [populationEvals]
    let current := legacyCurrentBest populationEvals
    let bestPal' := if JsVal.gt current.2 bestFit then
        (match current.1 with
          | some i => pop.getD i []
          | none => bestPal)
      else bestPal
    let bestFit' := if JsVal.gt current.2 bestFit then current.2 else bestFit
    if legacyGaTermCond thresholdFitness bestFit' populationEvals then
      (iteration, pop, (bestPal', bestFit'), hist')
    else
      let elite := match current.1 with
        | some i => [pop.getD i []]
        | none => if pop.length > 0 then [pop.getD 0 []] else []
      let pop' := elite ++ (fillPalettes iteration).take (pop.length - elite.length)
      legacyGaLoop env primary thresholdFitness fillPalettes fuel (iteration + 1)
        pop' bestPal' bestFit' hist'

/-- The legacy `optimizer/genetic-crossover.ts`
`geneticCrossoverOptimization` (loop structure, best tracking and
termination translated exactly; offspring construction abstracted, see
`legacyGaLoop`). -/
def legacyGeneticCrossoverOptimization (env : ColorEnv) (primaryColor : IColor)
    (initialPopulation : List (List IColor)) (maxIterations : ℕ)
    (thresholdFitness : ℚ) (fillPalettes : ℕ → List (List IColor)) :
    Except String GAResult :=
  if initialPopulation.length < 2 then
    .error "Initial population must contain at least two palettes."
  else
    let result := legacyGaLoop env primaryColor thresholdFitness fillPalettes
      maxIterations 0 initialPopulation initialPopulation.headI .negInf []
    let finalPop := result.2.1
    let finalEvals := finalPop.map (fun p => evaluatePaletteSolution env primaryColor p)
    let finalScan := (finalPop.zip finalEvals).foldl
      (fun acc pe => if JsVal.gt pe.2 acc.2 then pe else acc) result.2.2.1
    .ok ⟨finalPop, finalScan.1, finalScan.2, result.1, result.2.2.2⟩

/-- First-occurrence deduplication, the order `Array.from(new Set(colors))`
produces. -/
def dedupFirst (l : List String) : List String :=
  l.foldl (fun acc x => if x ∈ acc then acc else acc ++ [x]) []

/-- The color graph (`optimization/optimization.types.ts`): an ordered
association of node keys to edge lists, mirroring a JS object with
string keys in insertion order. -/
def ColorGraph : Type := List (String × List (String × JsVal))

/-- `buildColorGraph` (`optimization/algorithms/pathoptimizer.ts`):
complete graph over the deduplicated colors; a thrown distance
computation (`env.deltaEStr` returning `none`) skips the edge; with one
unique color the graph has that single node and no edges, with none it
is empty. -/
def buildColorGraph (env : ColorEnv) (colors : List String) : ColorGraph :=
  let uniqueColors := dedupFirst colors
  if uniqueColors.length < 2 then
    match uniqueColors with
    | [u] => [(u, [])]
    | _ => []
  else
    uniqueColors.map (fun sourceColor =>
      (sourceColor,
        uniqueColors.filterMap (fun targetColor =>
          if sourceColor ≠ targetColor then
            (env.deltaEStr sourceColor targetColor).map (fun d => (targetColor, d))
          else none)))

/-- The distance-collection loop of `calculatePathFitness`: the edge of
each consecutive pair, `none` as soon as an edge is missing or its
distance non-finite (the source then returns `Infinity`). -/
def collectDistances (graph : ColorGraph) : List String → Option (List JsVal)
  | [] => some []
  | [_] => some []
  | current :: next :: rest =>
    match (graph.lookup current).bind (fun edges => edges.lookup next) with
    | none => none
    | some d =>
      if ! JsVal.isFiniteB d then none
      else (collectDistances graph (next :: rest)).map (fun ds => d :: ds)

/-- `calculatePathFitness` (`optimization/algorithms/pathoptimizer.ts`):
coefficient of variation of the consecutive-step distances plus a small
inverse-mean penalty; 0 for paths with fewer than 2 colors, `Infinity`
for a missing/non-finite edge or a zero mean. -/
def calculatePathFitness (graph : ColorGraph) (path : List String) : JsVal :=
  if path.length < 2 then .fin 0
  else
    match collectDistances graph path with
    | none => .posInf
    | some distances =>
      if distances.length = 0 then .fin 0
      else
        let sum := distances.foldl JsVal.add (.fin 0)
        let mean := JsVal.div sum (.fin distances.length)
        if mean = .fin 0 then .posInf
        else
          let variance := JsVal.div
            (distances.foldl
              (fun acc val => JsVal.add acc (JsVal.mul (JsVal.sub val mean) (JsVal.sub val mean)))
              (.fin 0))
            (.fin distances.length)
          let standardDeviation := JsVal.sqrt variance
          JsVal.add (JsVal.div standardDeviation mean)
            (JsVal.div (.fin (1/10)) mean)

/-- `shuffleArray` (`utils/misc.ts`): Fisher–Yates running the swap index
down to 0 (the final swap at index 0 is a no-op). -/
def shuffleArrayModel {α : Type} (js : ℕ → ℕ) (l : List α) : List α :=
  match l.length with
  | 0 => l
  | n + 1 =>
    -- swaps at indices n, n-1, ..., 1, 0; reuse the Fisher–Yates body,
    -- whose missing index-0 swap is the identity swap `arr[0] ↔ arr[0]`
    fyGo js l n

/-- `generateInitialPath`: first color fixed, rest shuffled. -/
def generateInitialPath {α : Type} (js : ℕ → ℕ) (colors : List α) : List α :=
  if colors.length < 2 then colors
  else
    match colors with
    | [] => colors
    | first :: remaining => first :: shuffleArrayModel js remaining

/-- `mutatePath`: swap two random non-first positions.  The source
redraws `index2` while it collides with `index1`; the redraw loop is
modelled by a deterministic completion to some other in-range index
(which outcome occurs is irrelevant to every verified claim). -/
def mutatePath {α : Type} (d : ℕ × ℕ) (path : List α) : List α :=
  if path.length < 3 then path
  else
    let index1 := (randomIntO d.1 1 (path.length - 1)).toNat
    let raw2 := (randomIntO d.2 1 (path.length - 1)).toNat
    let index2 := if raw2 ≠ index1 then raw2
      else if index1 + 1 < path.length then index1 + 1 else 1
    listSwap path index1 index2

/-- The iterative-improvement loop of `findOptimalColorPath`: a mutation
replaces the best path only when its fitness is finite and strictly
lower. -/
def pathLoop (graph : ColorGraph) (mutDs : ℕ → ℕ × ℕ) :
    ℕ → ℕ → List String → JsVal → List String × JsVal
  | 0, _, bestPath, bestFitness => (bestPath, bestFitness)
  | fuel + 1, i, bestPath, bestFitness =>
    let newPath := mutatePath (mutDs i) bestPath
    let newFitness := calculatePathFitness graph newPath
    if JsVal.isFiniteB newFitness && JsVal.lt newFitness bestFitness then
      pathLoop graph mutDs fuel (i + 1) newPath newFitness
    else
      pathLoop graph mutDs fuel (i + 1) bestPath bestFitness

/-- Result record of `findOptimalColorPath`. -/
structure PathResult where
  path : List String
  fitness : JsVal
deriving Repr

/-- `findOptimalColorPath` (`optimization/algorithms/pathoptimizer.ts`). -/
def findOptimalColorPath (env : ColorEnv) (colors : List String)
    (iterations : ℕ) (shuffleJs : ℕ → ℕ) (mutDs : ℕ → ℕ × ℕ) :
    Except String PathResult :=
  if colors.length < 2 then
    .error "Color path optimization requires at least 2 colors."
  else
    let graph := buildColorGraph env colors
    if graph.length < 2 then .ok ⟨colors, .posInf⟩
    else
      let bestPath := generateInitialPath shuffleJs colors
      let bestFitness := calculatePathFitness graph bestPath
      if ! JsVal.isFiniteB bestFitness then .ok ⟨bestPath, .posInf⟩
      else
        let final := pathLoop graph mutDs iterations 0 bestPath bestFitness
        .ok ⟨final.1, final.2⟩

/-! ## Test fixtures: concrete environments and palettes for witnesses -/

/-- A fixed derived-representation payload for test environments. -/
def testDerived : Derived := ⟨"", (0, 0, 0), (0, 0, 0), 1⟩

/-- A concrete external color model: luminance 1 for colors with a red
channel of at least 200, 1/2 otherwise; constant chroma 10 and constant
perceptual distance 20. -/
def testEnv : ColorEnv where
  mkDerived := fun _ _ _ => testDerived
  luminance := fun c => if 200 ≤ c.r then .fin 1 else .fin (1/2)
  lchChroma := fun _ => .fin 10
  deltaE := fun _ _ => .fin 20
  deltaEStr := fun a b => if a = b then some (.fin 0) else some (.fin 20)

/-- A concrete external color model with constant luminance (every
contrast ratio is 1). -/
def flatEnv : ColorEnv where
  mkDerived := fun _ _ _ => testDerived
  luminance := fun _ => .fin (1/2)
  lchChroma := fun _ => .fin 10
  deltaE := fun _ _ => .fin 20
  deltaEStr := fun _ _ => some (.fin 20)

/-- A concrete color with the test derived payload. -/
def mkColor (r g b : ℤ) : IColor := ⟨r, g, b, testDerived⟩

/-- A concrete primary reference color. -/
def primary0 : IColor := mkColor 50 60 70

/-- Concrete palette `[accent, background, surface, buttonText, mainText]`
with a mid-luminance, non-monotone background. -/
def paletteA : List IColor :=
  [mkColor 10 20 30, mkColor 128 10 30, mkColor 40 50 60,
    mkColor 70 80 90, mkColor 100 110 120]

/-- Concrete palette like `paletteA` but with a white (high-luminance,
monotone) background. -/
def paletteB : List IColor :=
  [mkColor 10 20 30, mkColor 255 255 255, mkColor 40 50 60,
    mkColor 70 80 90, mkColor 100 110 120]

/-! ## Basic facts about the number model and the fitness function -/

theorem finalCheck_cases (x : JsVal) :
    finalCheck x = .negInf ∨ ∃ q : ℚ, finalCheck x = .fin q ∧ x = .fin q := by
  cases x <;> simp [finalCheck, JsVal.isNaNB, JsVal.isFiniteB]

theorem evaluate_eq_finalCheck (env : ColorEnv) (p a b c d e : IColor) :
    ∃ x, evaluatePaletteSolution env p [a, b, c, d, e] = finalCheck x :=
  ⟨_, rfl⟩

theorem evaluate_negInf_or_fin (env : ColorEnv) (primary : IColor)
    (palette : List IColor) :
    evaluatePaletteSolution env primary palette = .negInf ∨
      ∃ q : ℚ, evaluatePaletteSolution env primary palette = .fin q := by
  rcases palette with _ | ⟨a, _ | ⟨b, _ | ⟨c, _ | ⟨d, _ | ⟨e, _ | ⟨f, tl⟩⟩⟩⟩⟩⟩
  · exact Or.inl rfl
  · exact Or.inl rfl
  · exact Or.inl rfl
  · exact Or.inl rfl
  · exact Or.inl rfl
  · obtain ⟨x, hx⟩ := evaluate_eq_finalCheck env primary a b c d e
    rw [hx]
    rcases finalCheck_cases x with h | ⟨q, hq, -⟩
    · exact Or.inl h
    · exact Or.inr ⟨q, hq⟩
  · exact Or.inl rfl

theorem evaluate_wrong_length (env : ColorEnv) (primary : IColor)
    (palette : List IColor) (h : palette.length ≠ 5) :
    evaluatePaletteSolution env primary palette = .negInf := by
  rcases palette with _ | ⟨a, _ | ⟨b, _ | ⟨c, _ | ⟨d, _ | ⟨e, _ | ⟨f, tl⟩⟩⟩⟩⟩⟩ <;>
    first
      | rfl
      | (exact absurd rfl h)

/-- C1: for every primary color and palette, `evaluatePaletteSolution`
returns `-Infinity` (without throwing) when the palette length is not 5;
its accumulated score is routed through `finalCheck`, which maps any NaN
or non-finite score to `-Infinity`; consequently it never returns NaN,
and every result is either the `-Infinity` sentinel or finite. -/
theorem fitness_invalid_sentinel (env : ColorEnv) (primary : IColor)
    (palette : List IColor) :
    (palette.length ≠ 5 → evaluatePaletteSolution env primary palette = .negInf) ∧
    (∀ a b c d e : IColor, palette = [a, b, c, d, e] →
      ∃ score, evaluatePaletteSolution env primary palette = finalCheck score) ∧
    (∀ score : JsVal, JsVal.isNaNB score = true ∨ JsVal.isFiniteB score = false →
      finalCheck score = .negInf) ∧
    evaluatePaletteSolution env primary palette ≠ .nan ∧
    (evaluatePaletteSolution env primary palette = .negInf ∨
      JsVal.isFiniteB (evaluatePaletteSolution env primary palette) = true) := by
  refine ⟨fun h => evaluate_wrong_length env primary palette h, ?_, ?_, ?_, ?_⟩
  · rintro a b c d e rfl
    exact evaluate_eq_finalCheck env primary a b c d e
  · intro score h
    rcases h with h | h <;> cases score <;>
      simp_all [finalCheck, JsVal.isNaNB, JsVal.isFiniteB]
  · rcases evaluate_negInf_or_fin env primary palette with h | ⟨q, h⟩ <;> simp [h]
  · rcases evaluate_negInf_or_fin env primary palette with h | ⟨q, h⟩
    · exact Or.inl h
    · right; rw [h]; rfl

/-- Witness for C1 at concrete inputs: a length-1 palette is rejected
with `-Infinity`, and on a concrete length-5 palette the result is not
NaN. -/
theorem fitness_invalid_sentinel_witness :
    evaluatePaletteSolution testEnv primary0 [mkColor 0 0 0] = .negInf ∧
    evaluatePaletteSolution testEnv primary0 paletteA ≠ .nan :=
  ⟨(fitness_invalid_sentinel testEnv primary0 [mkColor 0 0 0]).1 (by decide),
   (fitness_invalid_sentinel testEnv primary0 paletteA).2.2.2.1⟩

/-- The variant of `evaluatePaletteSolution` that follows the words of
the specification sentence behind claim C2: the button-text contrast
pairs are taken against the *accent* and the *background* colors
(instead of the accent and the primary reference color as in the
source); every other term is identical.  This definition exists only to
be compared against the source function. -/
def evaluatePaletteSolutionSpecText (env : ColorEnv) (primaryColor : IColor)
    (palette : List IColor) : JsVal :=
  match palette with
  | [accentColor, backgroundColor, surfaceColor, buttonText, mainText] =>
    let wTextContrast : JsVal := .fin 2
    let wUiContrast : JsVal := .fin (3/2)
    let wHarmonyContrast : JsVal := .fin 1
    let wBgQuality : JsVal := .fin 1
    let wMinDeltaE : JsVal := .fin (1/2)
    let contrastAccentButton := getContrastRatio env buttonText accentColor
    let contrastBgButton := getContrastRatio env buttonText backgroundColor
    let f1 := JsVal.add (.fin 0)
      (JsVal.mul wTextContrast
        (JsVal.add (JsVal.min contrastAccentButton (.fin 7))
          (JsVal.min contrastBgButton (.fin 7))))
    let contrastMainSurface := getContrastRatio env mainText surfaceColor
    let f2 := JsVal.add f1
      (JsVal.mul (JsVal.mul wTextContrast (.fin 2))
        (JsVal.min contrastMainSurface (.fin 7)))
    let contrastPrimarySurface := getContrastRatio env primaryColor surfaceColor
    let contrastAccentSurface := getContrastRatio env accentColor surfaceColor
    let contrastBgSurface := getContrastRatio env backgroundColor surfaceColor
    let f3 := JsVal.add f2
      (JsVal.mul wUiContrast
        (JsVal.add (JsVal.min contrastPrimarySurface (.fin (9/2)))
          (JsVal.min contrastAccentSurface (.fin (9/2)))))
    let f4 := JsVal.add f3
      (JsVal.mul wUiContrast (JsVal.min contrastBgSurface (.fin 3)))
    let contrastPrimaryAccent := getContrastRatio env primaryColor accentColor
    let contrastPrimaryBg := getContrastRatio env primaryColor backgroundColor
    let contrastAccentBg := getContrastRatio env accentColor backgroundColor
    let f5 := JsVal.add f4
      (JsVal.mul wHarmonyContrast
        (JsVal.add
          (JsVal.add (rewardHarmony contrastPrimaryAccent)
            (rewardHarmony contrastPrimaryBg))
          (rewardHarmony contrastAccentBg)))
    let bgLuminance := env.luminance backgroundColor
    let bgIsMonotone : Bool :=
      backgroundColor.r = backgroundColor.g ∧ backgroundColor.g = backgroundColor.b
    let bgChroma := env.lchChroma backgroundColor
    let f6 :=
      if JsVal.lt bgLuminance (.fin (1/10)) || JsVal.gt bgLuminance (.fin (9/10)) then
        JsVal.sub f5 (JsVal.mul wBgQuality (.fin 2))
      else f5
    let f7 :=
      if bgIsMonotone || JsVal.lt bgChroma (.fin 5) then
        JsVal.sub f6 (JsVal.mul wBgQuality (.fin 1))
      else JsVal.add f6 (JsVal.mul wBgQuality (.fin 1))
    let minDeltaE := minPairwiseDeltaE env palette
    let f8 :=
      if JsVal.lt minDeltaE (.fin 10) then
        JsVal.sub f7 (JsVal.mul wMinDeltaE (JsVal.sub (.fin 10) minDeltaE))
      else JsVal.add f7 (JsVal.mul wMinDeltaE (.fin 2))
    finalCheck f8
  | _ => .negInf

/-- The remainder of the fitness computation (UI contrast, harmony,
background quality, minimum ΔE and the final check) applied to the
accumulated text-contrast score, exactly as the source continues after
its text-contrast section. -/
def fitnessAfterTextTerm (env : ColorEnv) (primaryColor accentColor backgroundColor
    surfaceColor : IColor) (palette : List IColor) (f2 : JsVal) : JsVal :=
  let wUiContrast : JsVal := .fin (3/2)
  let wHarmonyContrast : JsVal := .fin 1
  let wBgQuality : JsVal := .fin 1
  let wMinDeltaE : JsVal := .fin (1/2)
  let contrastPrimarySurface := getContrastRatio env primaryColor surfaceColor
  let contrastAccentSurface := getContrastRatio env accentColor surfaceColor
  let contrastBgSurface := getContrastRatio env backgroundColor surfaceColor
  let f3 := JsVal.add f2
    (JsVal.mul wUiContrast
      (JsVal.add (JsVal.min contrastPrimarySurface (.fin (9/2)))
        (JsVal.min contrastAccentSurface (.fin (9/2)))))
  let f4 := JsVal.add f3
    (JsVal.mul wUiContrast (JsVal.min contrastBgSurface (.fin 3)))
  let contrastPrimaryAccent := getContrastRatio env primaryColor accentColor
  let contrastPrimaryBg := getContrastRatio env primaryColor backgroundColor
  let contrastAccentBg := getContrastRatio env accentColor backgroundColor
  let f5 := JsVal.add f4
    (JsVal.mul wHarmonyContrast
      (JsVal.add
        (JsVal.add (rewardHarmony contrastPrimaryAccent)
          (rewardHarmony contrastPrimaryBg))
        (rewardHarmony contrastAccentBg)))
  let bgLuminance := env.luminance backgroundColor
  let bgIsMonotone : Bool :=
    backgroundColor.r = backgroundColor.g ∧ backgroundColor.g = backgroundColor.b
  let bgChroma := env.lchChroma backgroundColor
  let f6 :=
    if JsVal.lt bgLuminance (.fin (1/10)) || JsVal.gt bgLuminance (.fin (9/10)) then
      JsVal.sub f5 (JsVal.mul wBgQuality (.fin 2))
    else f5
  let f7 :=
    if bgIsMonotone || JsVal.lt bgChroma (.fin 5) then
      JsVal.sub f6 (JsVal.mul wBgQuality (.fin 1))
    else JsVal.add f6 (JsVal.mul wBgQuality (.fin 1))
  let minDeltaE := minPairwiseDeltaE env palette
  let f8 :=
    if JsVal.lt minDeltaE (.fin 10) then
      JsVal.sub f7 (JsVal.mul wMinDeltaE (JsVal.sub (.fin 10) minDeltaE))
    else JsVal.add f7 (JsVal.mul wMinDeltaE (.fin 2))
  finalCheck f8

/-- C2 counterexample: on a concrete palette whose background luminance
differs from the primary color's, `evaluatePaletteSolution` disagrees
with the spec-worded variant whose button-text pairs are taken against
accent and *background* — so the claim's description of the text term is
false of the source. -/
theorem textTerm_spec_counterexample :
    evaluatePaletteSolution testEnv primary0 paletteB ≠
      evaluatePaletteSolutionSpecText testEnv primary0 paletteB := by
  have h1 : evaluatePaletteSolution testEnv primary0 paletteB = .fin (261/22) := by
    norm_num [evaluatePaletteSolution, testEnv, primary0, paletteB, mkColor, testDerived,
      getContrastRatio, rewardHarmony, minPairwiseDeltaE, ltPairs, finalCheck,
      JsVal.div, JsVal.add, JsVal.mul, JsVal.min, JsVal.max, JsVal.sub, JsVal.neg,
      JsVal.lt, JsVal.gt, JsVal.isNaNB, JsVal.isFiniteB]
  have h2 : evaluatePaletteSolutionSpecText testEnv primary0 paletteB = .fin (301/22) := by
    norm_num [evaluatePaletteSolutionSpecText, testEnv, primary0, paletteB, mkColor,
      testDerived, getContrastRatio, rewardHarmony, minPairwiseDeltaE, ltPairs, finalCheck,
      JsVal.div, JsVal.add, JsVal.mul, JsVal.min, JsVal.max, JsVal.sub, JsVal.neg,
      JsVal.lt, JsVal.gt, JsVal.isNaNB, JsVal.isFiniteB]
  rw [h1, h2]
  intro h
  have := JsVal.fin.inj h
  norm_num at this

/-- C2 (amended): the text-contrast term of `evaluatePaletteSolution`
adds the WCAG contrast of buttonText vs the *primary reference color*
and of buttonText vs the accent color, each capped at 7.0 and weighted
2.0, plus the contrast of mainText vs surface capped at 7.0 with double
weight (2.0 × 2); the rest of the computation continues from that
accumulated score. -/
theorem textTerm_uses_primary_and_accent (env : ColorEnv)
    (p a bg s bt mt : IColor) :
    evaluatePaletteSolution env p [a, bg, s, bt, mt] =
      fitnessAfterTextTerm env p a bg s [a, bg, s, bt, mt]
        (JsVal.add
          (JsVal.add (.fin 0)
            (JsVal.mul (.fin 2)
              (JsVal.add (JsVal.min (getContrastRatio env bt p) (.fin 7))
                (JsVal.min (getContrastRatio env bt a) (.fin 7)))))
          (JsVal.mul (JsVal.mul (.fin 2) (.fin 2))
            (JsVal.min (getContrastRatio env mt s) (.fin 7)))) := rfl

/-- Witness for C2's amended theorem at a concrete input. -/
theorem textTerm_uses_primary_and_accent_witness :
    evaluatePaletteSolution testEnv primary0 paletteB =
      fitnessAfterTextTerm testEnv primary0 (mkColor 10 20 30)
        (mkColor 255 255 255) (mkColor 40 50 60) paletteB
        (JsVal.add
          (JsVal.add (.fin 0)
            (JsVal.mul (.fin 2)
              (JsVal.add
                (JsVal.min (getContrastRatio testEnv (mkColor 70 80 90) primary0) (.fin 7))
                (JsVal.min (getContrastRatio testEnv (mkColor 70 80 90) (mkColor 10 20 30)) (.fin 7)))))
          (JsVal.mul (JsVal.mul (.fin 2) (.fin 2))
            (JsVal.min (getContrastRatio testEnv (mkColor 100 110 120) (mkColor 40 50 60)) (.fin 7)))) :=
  textTerm_uses_primary_and_accent testEnv primary0 (mkColor 10 20 30)
    (mkColor 255 255 255) (mkColor 40 50 60) (mkColor 70 80 90) (mkColor 100 110 120)

/-- The closed-form piecewise value of `rewardHarmony` on finite ratios. -/
theorem rewardHarmony_fin (q : ℚ) :
    rewardHarmony (.fin q) =
      if q < 3/2 then .fin (-2)
      else if q < 3 then .fin 1
      else if q < 7 then .fin 2
      else if q < 10 then .fin 1
      else .fin 0 := by
  simp [rewardHarmony, JsVal.lt]

/-- C3: the harmony reward curve is the tri-modal shape of the source:
`-2` (a negative penalty) below 1.5:1, `1` on [1.5, 3), the maximal
reward `2` on the 3:1–7:1 sweet spot, tapering to `1` on [7, 10) and to
`0` from 10:1 on; both extremes (below 1.5:1 and at or above 10:1) score
strictly below every ratio in [1.5, 10), and no ratio scores above the
sweet spot's 2. -/
theorem rewardHarmony_triModal (q qmid : ℚ) :
    (q < 3/2 → rewardHarmony (.fin q) = .fin (-2)) ∧
    (3/2 ≤ q → q < 3 → rewardHarmony (.fin q) = .fin 1) ∧
    (3 ≤ q → q < 7 → rewardHarmony (.fin q) = .fin 2) ∧
    (7 ≤ q → q < 10 → rewardHarmony (.fin q) = .fin 1) ∧
    (10 ≤ q → rewardHarmony (.fin q) = .fin 0) ∧
    ((q < 3/2 ∨ 10 ≤ q) → 3/2 ≤ qmid → qmid < 10 →
      ∃ a b : ℚ, rewardHarmony (.fin q) = .fin a ∧
        rewardHarmony (.fin qmid) = .fin b ∧ a < b) ∧
    (∀ x : ℚ, ∃ a : ℚ, rewardHarmony (.fin x) = .fin a ∧ a ≤ 2) := by
  refine ⟨?_, ?_, ?_, ?_, ?_, ?_, ?_⟩
  · intro h; rw [rewardHarmony_fin]; simp [h]
  · intro h1 h2; rw [rewardHarmony_fin]
    rw [if_neg (by linarith), if_pos h2]
  · intro h1 h2; rw [rewardHarmony_fin]
    rw [if_neg (by linarith), if_neg (by linarith), if_pos h2]
  · intro h1 h2; rw [rewardHarmony_fin]
    rw [if_neg (by linarith), if_neg (by linarith), if_neg (by linarith), if_pos h2]
  · intro h1; rw [rewardHarmony_fin]
    rw [if_neg (by linarith), if_neg (by linarith), if_neg (by linarith),
      if_neg (by linarith)]
  · intro hq hm1 hm2
    have hqv : rewardHarmony (.fin q) = .fin (-2) ∨ rewardHarmony (.fin q) = .fin 0 := by
      rcases hq with h | h
      · left; rw [rewardHarmony_fin]; simp [h]
      · right; rw [rewardHarmony_fin]
        rw [if_neg (by linarith), if_neg (by linarith), if_neg (by linarith),
          if_neg (by linarith)]
    have hmv : rewardHarmony (.fin qmid) = .fin 1 ∨ rewardHarmony (.fin qmid) = .fin 2 := by
      rw [rewardHarmony_fin]
      by_cases h3 : qmid < 3
      · left; rw [if_neg (by linarith), if_pos h3]
      · by_cases h7 : qmid < 7
        · right; rw [if_neg (by linarith), if_neg h3, if_pos h7]
        · left
          rw [if_neg (by linarith), if_neg h3, if_neg h7, if_pos hm2]
    rcases hqv with hv | hv <;> rcases hmv with hw | hw <;>
      exact ⟨_, _, hv, hw, by norm_num⟩
  · intro x
    rw [rewardHarmony_fin]
    split_ifs <;> exact ⟨_, rfl, by norm_num⟩

/-- Witness for C3 at concrete ratios 1, 5 and 12. -/
theorem rewardHarmony_triModal_witness :
    rewardHarmony (.fin 1) = .fin (-2) ∧
    rewardHarmony (.fin 5) = .fin 2 ∧
    rewardHarmony (.fin 12) = .fin 0 ∧
    (∃ a b : ℚ, rewardHarmony (.fin 12) = .fin a ∧
      rewardHarmony (.fin 5) = .fin b ∧ a < b) :=
  ⟨(rewardHarmony_triModal 1 5).1 (by norm_num),
   (rewardHarmony_triModal 5 5).2.2.1 (by norm_num) (by norm_num),
   (rewardHarmony_triModal 12 5).2.2.2.2.1 (by norm_num),
   (rewardHarmony_triModal 12 5).2.2.2.2.2.1 (Or.inr (by norm_num))
     (by norm_num) (by norm_num)⟩

/-! ## Hill climbing at a strict local optimum (claim C5) -/

/-- At a strict local optimum the steepest-ascent scan keeps the seed
accumulator: no neighbour is finite and strictly better. -/
theorem bestNeighbour_none (env : ColorEnv) (primary : IColor) (cur : List IColor)
    (cf : JsVal) (moves : List Move)
    (h : ∀ m ∈ moves,
      ¬(JsVal.isFiniteB (evaluatePaletteSolution env primary (applyMove env cur m)) = true ∧
        JsVal.lt cf (evaluatePaletteSolution env primary (applyMove env cur m)) = true)) :
    bestNeighbour env primary cur cf moves = (none, cf) := by
  unfold bestNeighbour
  induction moves with
  | nil => rfl
  | cons m ms ih =>
    have hm := h m (List.mem_cons_self m ms)
    have hcond : (JsVal.isFiniteB (evaluatePaletteSolution env primary (applyMove env cur m)) &&
        JsVal.lt cf (evaluatePaletteSolution env primary (applyMove env cur m))) = false := by
      cases hA : JsVal.isFiniteB (evaluatePaletteSolution env primary (applyMove env cur m)) <;>
        cases hB : JsVal.lt cf (evaluatePaletteSolution env primary (applyMove env cur m)) <;>
          simp_all
    show bestNeighbourGo env primary cur (m :: ms) (none, cf) = (none, cf)
    unfold bestNeighbourGo
    simp only [hcond, Bool.false_eq_true, if_false]
    exact ih (fun m' hm' => h m' (List.mem_cons_of_mem m hm'))

/-- At a strict local optimum the hill-climbing loop increments the
patience counter every iteration and breaks (before the loop variable's
increment) once it reaches `patience`. -/
theorem hcLoop_localOpt (env : ColorEnv) (primary : IColor) (step : ℤ) (patience : ℕ)
    (cur : List IColor) (cf : JsVal)
    (hscan : bestNeighbour env primary cur cf (computeNeighbourMoves cur step) = (none, cf)) :
    ∀ fuel iteration counter hist, counter < patience → patience - counter ≤ fuel →
      hcLoop env primary step patience fuel iteration cur cf counter hist =
        ⟨cur, cf, iteration + (patience - counter) - 1,
          hist ++ List.replicate (patience - counter) cf⟩ := by
  intro fuel
  induction fuel with
  | zero => intro iteration counter hist hc hf; omega
  | succ fuel ih =>
    intro iteration counter hist hc hf
    simp only [hcLoop, hscan]
    by_cases hstop : patience ≤ counter + 1
    · have hpc : patience - counter = 1 := by omega
      rw [if_pos hstop, hpc]
      simp
    · rw [if_neg hstop]
      rw [ih (iteration + 1) (counter + 1) (hist ++ [cf]) (by omega) (by omega)]
      have h1 : iteration + 1 + (patience - (counter + 1)) - 1 =
          iteration + (patience - counter) - 1 := by omega
      have h2 : (hist ++ [cf]) ++ List.replicate (patience - (counter + 1)) cf =
          hist ++ List.replicate (patience - counter) cf := by
        rw [List.append_assoc]
        congr 1
        have h3 : patience - counter = (patience - (counter + 1)) + 1 := by omega
        rw [h3, List.replicate_succ]
        rfl
      rw [h1, h2]

/-- C5 (amended): a 5-color initial palette with finite fitness that is a
strict local optimum (no single-channel ±`neighbourStep` move has finite,
strictly higher fitness), with `1 ≤ patience ≤ maxIterations`, makes
`hillClimbingOptimization` run exactly `patience` loop bodies and return
`iterations = patience - 1` (the source `break`s before the loop
variable's increment) together with the initial palette unchanged, its
fitness, and a history of `patience` repetitions after the initial
entry. -/
theorem hillClimbing_localOptimum (env : ColorEnv) (primary : IColor)
    (initial : List IColor) (maxIterations patience : ℕ) (step : ℤ)
    (h5 : initial.length = 5)
    (hfin : JsVal.isFiniteB (evaluatePaletteSolution env primary initial) = true)
    (hopt : ∀ m ∈ computeNeighbourMoves initial step,
      ¬(JsVal.isFiniteB (evaluatePaletteSolution env primary (applyMove env initial m)) = true ∧
        JsVal.lt (evaluatePaletteSolution env primary initial)
          (evaluatePaletteSolution env primary (applyMove env initial m)) = true))
    (hp : 1 ≤ patience) (hmp : patience ≤ maxIterations) :
    hillClimbingOptimization env primary initial maxIterations patience step =
      .ok ⟨initial, evaluatePaletteSolution env primary initial, patience - 1,
        [evaluatePaletteSolution env primary initial] ++
          List.replicate patience (evaluatePaletteSolution env primary initial)⟩ := by
  unfold hillClimbingOptimization
  rw [if_neg (by rw [h5]; exact fun h => h rfl)]
  simp only [hfin, Bool.not_true, Bool.false_eq_true, if_false]
  rw [hcLoop_localOpt env primary step patience initial
    (evaluatePaletteSolution env primary initial)
    (bestNeighbour_none env primary initial _ _ hopt)
    maxIterations 0 0 [evaluatePaletteSolution env primary initial]
    (by omega) (by omega)]
  simp

/-- On the constant-luminance environment every 5-palette whose
background (index 1) is not a monotone gray scores exactly 17/2. -/
theorem evaluate_flatEnv (prim : IColor) (l : List IColor) (h5 : l.length = 5)
    (hbg : ¬((l.getD 1 (mkColor 0 0 0)).r = (l.getD 1 (mkColor 0 0 0)).g ∧
      (l.getD 1 (mkColor 0 0 0)).g = (l.getD 1 (mkColor 0 0 0)).b)) :
    evaluatePaletteSolution flatEnv prim l = .fin (17/2) := by
  rcases l with _ | ⟨a, _ | ⟨bg, _ | ⟨s, _ | ⟨bt, _ | ⟨mt, _ | ⟨x, tl⟩⟩⟩⟩⟩⟩ <;>
    simp_all
  have hbg' : ¬(bg.r = bg.g ∧ bg.g = bg.b) := by tauto
  norm_num [evaluatePaletteSolution, flatEnv, getContrastRatio, rewardHarmony,
    minPairwiseDeltaE, ltPairs, finalCheck, hbg',
    JsVal.div, JsVal.add, JsVal.mul, JsVal.min, JsVal.max, JsVal.sub, JsVal.neg,
    JsVal.lt, JsVal.gt, JsVal.isNaNB, JsVal.isFiniteB]

/-- Concrete value of the fitness of `paletteA` on the flat environment. -/
theorem evalA_flat : evaluatePaletteSolution flatEnv primary0 paletteA = .fin (17/2) :=
  evaluate_flatEnv primary0 paletteA (by decide) (by decide)

/-- Every single-channel ±10 neighbour of `paletteA` keeps a 5-element
palette with a non-monotone background. -/
theorem paletteA_neighbours_shape : ∀ m ∈ computeNeighbourMoves paletteA 10,
    (applyMove flatEnv paletteA m).length = 5 ∧
    ¬(((applyMove flatEnv paletteA m).getD 1 (mkColor 0 0 0)).r =
        ((applyMove flatEnv paletteA m).getD 1 (mkColor 0 0 0)).g ∧
      ((applyMove flatEnv paletteA m).getD 1 (mkColor 0 0 0)).g =
        ((applyMove flatEnv paletteA m).getD 1 (mkColor 0 0 0)).b) := by decide

/-- `paletteA` is a strict local optimum of the flat environment: every
neighbour has exactly the same fitness, so none is strictly better. -/
theorem paletteA_localOpt : ∀ m ∈ computeNeighbourMoves paletteA 10,
    ¬(JsVal.isFiniteB (evaluatePaletteSolution flatEnv primary0
        (applyMove flatEnv paletteA m)) = true ∧
      JsVal.lt (evaluatePaletteSolution flatEnv primary0 paletteA)
        (evaluatePaletteSolution flatEnv primary0 (applyMove flatEnv paletteA m)) = true) := by
  intro m hm
  have h2 := paletteA_neighbours_shape m hm
  have he : evaluatePaletteSolution flatEnv primary0 (applyMove flatEnv paletteA m) =
      .fin (17/2) := evaluate_flatEnv primary0 _ h2.1 h2.2
  rw [he, evalA_flat]
  norm_num [JsVal.lt, JsVal.isFiniteB]

/-- C5 counterexample: at the concrete strict local optimum `paletteA`
(flat environment, `maxIterations = 5 ≥ patience = 2`),
`hillClimbingOptimization` returns the initial palette but
`iterations = 1 = patience - 1`, not `patience = 2` as the claim
states. -/
theorem hillClimbing_iterations_counterexample :
    ∃ r : HCResult, hillClimbingOptimization flatEnv primary0 paletteA 5 2 10 = .ok r ∧
      r.solution = paletteA ∧ r.iterations = 1 ∧ ¬ r.iterations = 2 := by
  refine ⟨⟨paletteA, .fin (17/2), 1, [.fin (17/2)] ++ List.replicate 2 (.fin (17/2))⟩,
    ?_, rfl, rfl, by decide⟩
  unfold hillClimbingOptimization
  rw [if_neg (by decide)]
  simp only [evalA_flat, JsVal.isFiniteB, Bool.not_true, Bool.false_eq_true, if_false]
  rw [hcLoop_localOpt flatEnv primary0 10 2 paletteA (.fin (17/2))
    (bestNeighbour_none flatEnv primary0 paletteA _ _
      (by simpa only [evalA_flat] using paletteA_localOpt))
    5 0 0 [.fin (17/2)] (by omega) (by omega)]

/-- Witness for C5's amended theorem at the concrete local optimum. -/
theorem hillClimbing_localOptimum_witness :
    hillClimbingOptimization flatEnv primary0 paletteA 5 2 10 =
      .ok ⟨paletteA, evaluatePaletteSolution flatEnv primary0 paletteA, 2 - 1,
        [evaluatePaletteSolution flatEnv primary0 paletteA] ++
          List.replicate 2 (evaluatePaletteSolution flatEnv primary0 paletteA)⟩ :=
  hillClimbing_localOptimum flatEnv primary0 paletteA 5 2 10 (by decide)
    (by rw [evalA_flat]; rfl) paletteA_localOpt (by norm_num) (by norm_num)

/-! ## The neighbour move generator and move application (claim C9) -/

/-- Every move pushed for a color carries that color's palette index. -/
theorem movesForColor_index (i : ℕ) (c : IColor) (step : ℤ) (m : Move)
    (h : m ∈ movesForColor i c step) : m.paletteIndex = i := by
  simp only [movesForColor, List.mem_append] at h
  rcases h with ((((h | h) | h) | h) | h) | h <;>
    (split at h <;> simp_all)

/-- Membership in the generated move list, reduced to the per-color
generator at the move's own index. -/
theorem mem_computeNeighbourMoves (palette : List IColor) (step : ℤ) (m : Move) :
    m ∈ computeNeighbourMoves palette step ↔
      ∃ c, palette.get? m.paletteIndex = some c ∧ m ∈ movesForColor m.paletteIndex c step := by
  constructor
  · intro h
    simp only [computeNeighbourMoves, List.mem_join, List.mem_map] at h
    obtain ⟨l, ⟨⟨i, c⟩, hic, rfl⟩, hm⟩ := h
    have hidx := movesForColor_index i c step m hm
    subst hidx
    rw [List.mk_mem_enum_iff_getElem?] at hic
    exact ⟨c, by rw [List.get?_eq_getElem?]; exact hic, hm⟩
  · rintro ⟨c, hc, hm⟩
    simp only [computeNeighbourMoves, List.mem_join, List.mem_map]
    refine ⟨movesForColor m.paletteIndex c step, ⟨⟨m.paletteIndex, c⟩, ?_, rfl⟩, hm⟩
    rw [List.mk_mem_enum_iff_getElem?, ← List.get?_eq_getElem?]
    exact hc

/-- Same reduction for the legacy `optimizer/hill-climbing.ts` variant. -/
theorem movesForColorHC_index (i : ℕ) (c : IColor) (step : ℤ) (m : Move)
    (h : m ∈ movesForColorHC i c step) : m.paletteIndex = i := by
  simp only [movesForColorHC, List.mem_append] at h
  rcases h with ((((h | h) | h) | h) | h) | h <;>
    (split at h <;> simp_all)

theorem mem_computeNeighbourMovesHC (palette : List IColor) (step : ℤ) (m : Move) :
    m ∈ computeNeighbourMovesHC palette step ↔
      ∃ c, palette.get? m.paletteIndex = some c ∧ m ∈ movesForColorHC m.paletteIndex c step := by
  constructor
  · intro h
    simp only [computeNeighbourMovesHC, List.mem_join, List.mem_map] at h
    obtain ⟨l, ⟨⟨i, c⟩, hic, rfl⟩, hm⟩ := h
    have hidx := movesForColorHC_index i c step m hm
    subst hidx
    rw [List.mk_mem_enum_iff_getElem?] at hic
    exact ⟨c, by rw [List.get?_eq_getElem?]; exact hic, hm⟩
  · rintro ⟨c, hc, hm⟩
    simp only [computeNeighbourMovesHC, List.mem_join, List.mem_map]
    refine ⟨movesForColorHC m.paletteIndex c step, ⟨⟨m.paletteIndex, c⟩, ?_, rfl⟩, hm⟩
    rw [List.mk_mem_enum_iff_getElem?, ← List.get?_eq_getElem?]
    exact hc

/-- Per-channel membership in `movesForColor` (part_005 generator):
`+step` is pushed iff the channel is below 255, `-step` iff above 0. -/
theorem mem_movesForColor (i : ℕ) (c : IColor) (step : ℤ) (hstep : 0 < step) :
    (((⟨i, .r, step⟩ : Move) ∈ movesForColor i c step) ↔ c.r < 255) ∧
    (((⟨i, .r, -step⟩ : Move) ∈ movesForColor i c step) ↔ 0 < c.r) ∧
    (((⟨i, .g, step⟩ : Move) ∈ movesForColor i c step) ↔ c.g < 255) ∧
    (((⟨i, .g, -step⟩ : Move) ∈ movesForColor i c step) ↔ 0 < c.g) ∧
    (((⟨i, .b, step⟩ : Move) ∈ movesForColor i c step) ↔ c.b < 255) ∧
    (((⟨i, .b, -step⟩ : Move) ∈ movesForColor i c step) ↔ 0 < c.b) := by
  have h1 : step ≠ -step := by omega
  have h2 : -step ≠ step := by omega
  refine ⟨?_, ?_, ?_, ?_, ?_, ?_⟩ <;> simp [movesForColor, Move.mk.injEq, h1, h2]

/-- Per-channel membership in `movesForColorHC` (legacy generator):
`+step` is pushed iff the channel is below `255 - step`, `-step` iff
above `step`. -/
theorem mem_movesForColorHC (i : ℕ) (c : IColor) (step : ℤ) (hstep : 0 < step) :
    (((⟨i, .r, step⟩ : Move) ∈ movesForColorHC i c step) ↔ c.r < 255 - step) ∧
    (((⟨i, .r, -step⟩ : Move) ∈ movesForColorHC i c step) ↔ step < c.r) ∧
    (((⟨i, .g, step⟩ : Move) ∈ movesForColorHC i c step) ↔ c.g < 255 - step) ∧
    (((⟨i, .g, -step⟩ : Move) ∈ movesForColorHC i c step) ↔ step < c.g) ∧
    (((⟨i, .b, step⟩ : Move) ∈ movesForColorHC i c step) ↔ c.b < 255 - step) ∧
    (((⟨i, .b, -step⟩ : Move) ∈ movesForColorHC i c step) ↔ step < c.b) := by
  have h1 : step ≠ -step := by omega
  have h2 : -step ≠ step := by omega
  refine ⟨?_, ?_, ?_, ?_, ?_, ?_⟩ <;> simp [movesForColorHC, Move.mk.injEq, h1, h2]

/-- The change of every generated move is `+step` or `-step`. -/
theorem movesForColor_change (i : ℕ) (c : IColor) (step : ℤ) (m : Move)
    (h : m ∈ movesForColor i c step) : m.change = step ∨ m.change = -step := by
  simp only [movesForColor, List.mem_append] at h
  rcases h with ((((h | h) | h) | h) | h) | h <;> (split at h <;> simp_all)

/-- The palette-level membership characterization for a fixed color at a
fixed index, both variants. -/
theorem mem_neighbourMoves_at (palette : List IColor) (step : ℤ) (hstep : 0 < step)
    (i : ℕ) (c : IColor) (hc : palette.get? i = some c) (ch : Channel) (δ : ℤ) :
    ((⟨i, ch, δ⟩ : Move) ∈ computeNeighbourMoves palette step ↔
      (⟨i, ch, δ⟩ : Move) ∈ movesForColor i c step) ∧
    ((⟨i, ch, δ⟩ : Move) ∈ computeNeighbourMovesHC palette step ↔
      (⟨i, ch, δ⟩ : Move) ∈ movesForColorHC i c step) := by
  constructor
  · rw [mem_computeNeighbourMoves]
    constructor
    · rintro ⟨c', hc', hm⟩
      simp only at hc'
      rw [hc] at hc'
      cases hc'
      exact hm
    · intro hm
      exact ⟨c, hc, hm⟩
  · rw [mem_computeNeighbourMovesHC]
    constructor
    · rintro ⟨c', hc', hm⟩
      simp only at hc'
      rw [hc] at hc'
      cases hc'
      exact hm
    · intro hm
      exact ⟨c, hc, hm⟩

/-- C9 (amended): for every palette and positive step, the neighbour
generator emits up to two moves per color and RGB channel — in the
`hillclimbing.ts`/`simulatedannealing.ts` generator `+step` exactly when
the channel is below 255 and `-step` exactly when it is above 0 (so a
`+step` move near the upper bound may overshoot and is clamped on
application), while the legacy `optimizer/hill-climbing.ts` generator
emits `+step` exactly when the channel is below `255 - step` and `-step`
exactly when it is above `step`; every generated move's change is
`±step` and its index is in range; and applying a move clamps the
changed channel into [0,255], leaves the other colors untouched, and
rebuilds the modified color wholesale through `toIColor`, whose every
derived representation is freshly recomputed from the new channels. -/
theorem neighbourMoves_characterization :
    (∀ (palette : List IColor) (step : ℤ), 0 < step →
      ∀ i c, palette.get? i = some c →
        (((⟨i, .r, step⟩ : Move) ∈ computeNeighbourMoves palette step) ↔ c.r < 255) ∧
        (((⟨i, .r, -step⟩ : Move) ∈ computeNeighbourMoves palette step) ↔ 0 < c.r) ∧
        (((⟨i, .g, step⟩ : Move) ∈ computeNeighbourMoves palette step) ↔ c.g < 255) ∧
        (((⟨i, .g, -step⟩ : Move) ∈ computeNeighbourMoves palette step) ↔ 0 < c.g) ∧
        (((⟨i, .b, step⟩ : Move) ∈ computeNeighbourMoves palette step) ↔ c.b < 255) ∧
        (((⟨i, .b, -step⟩ : Move) ∈ computeNeighbourMoves palette step) ↔ 0 < c.b)) ∧
    (∀ (palette : List IColor) (step : ℤ), 0 < step →
      ∀ i c, palette.get? i = some c →
        (((⟨i, .r, step⟩ : Move) ∈ computeNeighbourMovesHC palette step) ↔ c.r < 255 - step) ∧
        (((⟨i, .r, -step⟩ : Move) ∈ computeNeighbourMovesHC palette step) ↔ step < c.r) ∧
        (((⟨i, .g, step⟩ : Move) ∈ computeNeighbourMovesHC palette step) ↔ c.g < 255 - step) ∧
        (((⟨i, .g, -step⟩ : Move) ∈ computeNeighbourMovesHC palette step) ↔ step < c.g) ∧
        (((⟨i, .b, step⟩ : Move) ∈ computeNeighbourMovesHC palette step) ↔ c.b < 255 - step) ∧
        (((⟨i, .b, -step⟩ : Move) ∈ computeNeighbourMovesHC palette step) ↔ step < c.b)) ∧
    (∀ (palette : List IColor) (step : ℤ) (m : Move),
      m ∈ computeNeighbourMoves palette step →
        m.paletteIndex < palette.length ∧ (m.change = step ∨ m.change = -step)) ∧
    (∀ (v : ℤ), 0 ≤ clampZ v 0 255 ∧ clampZ v 0 255 ≤ 255) ∧
    (∀ (env : ColorEnv) (palette : List IColor) (m : Move) (c : IColor),
      palette.get? m.paletteIndex = some c →
        applyMove env palette m =
          palette.set m.paletteIndex
            (toIColor env (moveRgb c m).1 (moveRgb c m).2.1 (moveRgb c m).2.2) ∧
        (m.channel = .r → moveRgb c m = (clampZ (c.r + m.change) 0 255, c.g, c.b)) ∧
        (m.channel = .g → moveRgb c m = (c.r, clampZ (c.g + m.change) 0 255, c.b)) ∧
        (m.channel = .b → moveRgb c m = (c.r, c.g, clampZ (c.b + m.change) 0 255))) ∧
    (∀ (env : ColorEnv) (x y z : ℤ),
      (toIColor env x y z).r = x ∧ (toIColor env x y z).g = y ∧
      (toIColor env x y z).b = z ∧ (toIColor env x y z).derived = env.mkDerived x y z) := by
  refine ⟨?_, ?_, ?_, ?_, ?_, ?_⟩
  · intro palette step hstep i c hc
    have hmf := mem_movesForColor i c step hstep
    have hat := fun ch δ => (mem_neighbourMoves_at palette step hstep i c hc ch δ).1
    exact ⟨(hat _ _).trans hmf.1, (hat _ _).trans hmf.2.1, (hat _ _).trans hmf.2.2.1,
      (hat _ _).trans hmf.2.2.2.1, (hat _ _).trans hmf.2.2.2.2.1,
      (hat _ _).trans hmf.2.2.2.2.2⟩
  · intro palette step hstep i c hc
    have hmf := mem_movesForColorHC i c step hstep
    have hat := fun ch δ => (mem_neighbourMoves_at palette step hstep i c hc ch δ).2
    exact ⟨(hat _ _).trans hmf.1, (hat _ _).trans hmf.2.1, (hat _ _).trans hmf.2.2.1,
      (hat _ _).trans hmf.2.2.2.1, (hat _ _).trans hmf.2.2.2.2.1,
      (hat _ _).trans hmf.2.2.2.2.2⟩
  · intro palette step m hm
    rw [mem_computeNeighbourMoves] at hm
    obtain ⟨c, hc, hmem⟩ := hm
    constructor
    · obtain ⟨hlt, -⟩ := List.get?_eq_some.mp hc
      exact hlt
    · exact movesForColor_change m.paletteIndex c step m hmem
  · intro v
    unfold clampZ
    omega
  · intro env palette m c hc
    refine ⟨?_, ?_, ?_, ?_⟩
    · unfold applyMove
      rw [hc]
    · intro hch; unfold moveRgb; rw [hch]
    · intro hch; unfold moveRgb; rw [hch]
    · intro hch; unfold moveRgb; rw [hch]
  · intro env x y z
    exact ⟨rfl, rfl, rfl, rfl⟩

/-- C9 counterexample: on a concrete palette whose first color has red
channel 250 and step 10, the generator emits the `+10` red move even
though `250 + 10 = 260` lies outside [0,255] (it is clamped only on
application); and the legacy generator omits the `+10` red move for a
channel value 245 even though `245 + 10 = 255` stays inside the bounds —
so "omitting any move that would take that channel outside [0,255]"
describes neither generator. -/
theorem neighbourMoves_bounds_counterexample :
    ((⟨0, .r, 10⟩ : Move) ∈ computeNeighbourMoves
      [mkColor 250 0 0, mkColor 128 10 30, mkColor 40 50 60,
        mkColor 70 80 90, mkColor 100 110 120] 10 ∧
      ¬((250 : ℤ) + 10 ≤ 255)) ∧
    ((⟨0, .r, 10⟩ : Move) ∉ computeNeighbourMovesHC
      [mkColor 245 0 0, mkColor 128 10 30, mkColor 40 50 60,
        mkColor 70 80 90, mkColor 100 110 120] 10 ∧
      (0 : ℤ) ≤ 245 + 10 ∧ (245 : ℤ) + 10 ≤ 255) := by
  refine ⟨⟨?_, by decide⟩, ?_, by decide, by decide⟩ <;> decide

/-- Witness for C9 at a concrete palette and step. -/
theorem neighbourMoves_characterization_witness :
    (((⟨0, .r, 10⟩ : Move) ∈ computeNeighbourMoves paletteA 10) ↔
      (paletteA.getD 0 (mkColor 0 0 0)).r < 255) ∧
    ((⟨1, .g, -10⟩ : Move) ∈ computeNeighbourMoves paletteA 10 ↔
      0 < (paletteA.getD 1 (mkColor 0 0 0)).g) :=
  ⟨(neighbourMoves_characterization.1 paletteA 10 (by norm_num) 0
      (paletteA.getD 0 (mkColor 0 0 0)) (by decide)).1,
   (neighbourMoves_characterization.1 paletteA 10 (by norm_num) 1
      (paletteA.getD 1 (mkColor 0 0 0)) (by decide)).2.2.2.1⟩

/-! ## Crossover closure (claim C7) -/

/-- The modelled `randomInt` draw lies in `[lo, hi]` whenever the range
is nonempty. -/
theorem randomIntO_mem (n : ℕ) (lo hi : ℤ) (h : lo ≤ hi) :
    lo ≤ randomIntO n lo hi ∧ randomIntO n lo hi ≤ hi := by
  unfold randomIntO
  rw [if_neg (by omega)]
  have hpos : 0 < (hi - lo + 1).toNat := by omega
  have hlt : n % (hi - lo + 1).toNat < (hi - lo + 1).toNat := Nat.mod_lt _ hpos
  simp only [Int.ofNat_eq_natCast]
  omega

/-- Reduction equations for `uniformCross`. -/
theorem uniformCross_cons {α : Type} (coin : ℕ → Bool) (i : ℕ) (x y : α)
    (xs ys : List α) :
    uniformCross coin i (x :: xs) (y :: ys) =
      if coin i then
        (y :: (uniformCross coin (i + 1) xs ys).1, x :: (uniformCross coin (i + 1) xs ys).2)
      else
        (x :: (uniformCross coin (i + 1) xs ys).1, y :: (uniformCross coin (i + 1) xs ys).2) := rfl

theorem uniformCross_nil_left {α : Type} (coin : ℕ → Bool) (i : ℕ) (ys : List α) :
    uniformCross coin i [] ys = ([], ys) := by cases ys <;> rfl

theorem uniformCross_nil_right {α : Type} (coin : ℕ → Bool) (i : ℕ) (x : α) (xs : List α) :
    uniformCross coin i (x :: xs) [] = (x :: xs, []) := rfl

/-- `uniformCross` preserves the two lengths. -/
theorem uniformCross_length {α : Type} (coin : ℕ → Bool) :
    ∀ (i : ℕ) (xs ys : List α),
      (uniformCross coin i xs ys).1.length = xs.length ∧
      (uniformCross coin i xs ys).2.length = ys.length := by
  intro i xs
  induction xs generalizing i with
  | nil => intro ys; simp [uniformCross_nil_left]
  | cons x xs ih =>
    intro ys
    cases ys with
    | nil => simp [uniformCross_nil_right]
    | cons y ys =>
      have h := ih (i + 1) ys
      rw [uniformCross_cons]
      by_cases hc : coin i <;> simp [hc, h.1, h.2]

/-- Every gene of a `uniformCross` offspring comes from one of the two
input lists. -/
theorem uniformCross_mem {α : Type} (coin : ℕ → Bool) :
    ∀ (i : ℕ) (xs ys : List α),
      (∀ g ∈ (uniformCross coin i xs ys).1, g ∈ xs ∨ g ∈ ys) ∧
      (∀ g ∈ (uniformCross coin i xs ys).2, g ∈ xs ∨ g ∈ ys) := by
  intro i xs
  induction xs generalizing i with
  | nil =>
    intro ys
    rw [uniformCross_nil_left]
    exact ⟨fun g hg => absurd hg (List.not_mem_nil g), fun g hg => Or.inr hg⟩
  | cons x xs ih =>
    intro ys
    cases ys with
    | nil =>
      rw [uniformCross_nil_right]
      exact ⟨fun g hg => Or.inl hg, fun g hg => absurd hg (List.not_mem_nil g)⟩
    | cons y ys =>
      obtain ⟨h1, h2⟩ := ih (i + 1)  ys
      rw [uniformCross_cons]
      by_cases hc : coin i <;> simp only [hc, if_true, if_false] <;> constructor <;>
          intro g hg <;> rcases List.mem_cons.mp hg with rfl | hg'
      · exact Or.inr (List.mem_cons_self _ _)
      · rcases h1 g hg' with h | h
        · exact Or.inl (List.mem_cons_of_mem x h)
        · exact Or.inr (List.mem_cons_of_mem y h)
      · exact Or.inl (List.mem_cons_self _ _)
      · rcases h2 g hg' with h | h
        · exact Or.inl (List.mem_cons_of_mem x h)
        · exact Or.inr (List.mem_cons_of_mem y h)
      · exact Or.inl (List.mem_cons_self _ _)
      · rcases h1 g hg' with h | h
        · exact Or.inl (List.mem_cons_of_mem x h)
        · exact Or.inr (List.mem_cons_of_mem y h)
      · exact Or.inr (List.mem_cons_self _ _)
      · rcases h2 g hg' with h | h
        · exact Or.inl (List.mem_cons_of_mem x h)
        · exact Or.inr (List.mem_cons_of_mem y h)

/-- `listSwap` preserves length. -/
theorem listSwap_length {α : Type} (l : List α) (i j : ℕ) :
    (listSwap l i j).length = l.length := by
  unfold listSwap
  cases hi : l.get? i <;> cases hj : l.get? j <;> simp

/-- `listSwap` preserves membership. -/
theorem listSwap_mem {α : Type} (l : List α) (i j : ℕ) (x : α)
    (h : x ∈ listSwap l i j) : x ∈ l := by
  unfold listSwap at h
  cases hi : l.get? i <;> rw [hi] at h
  · exact h
  · cases hj : l.get? j <;> rw [hj] at h
    · exact h
    · rcases List.mem_or_eq_of_mem_set h with h' | rfl
      · rcases List.mem_or_eq_of_mem_set h' with h'' | rfl
        · exact h''
        · exact List.get?_mem hj
      · exact List.get?_mem hi

/-- The Fisher–Yates body preserves length. -/
theorem fyGo_length {α : Type} (js : ℕ → ℕ) :
    ∀ (i : ℕ) (l : List α), (fyGo js l i).length = l.length := by
  intro i
  induction i with
  | zero => intro l; rfl
  | succ i ih =>
    intro l
    unfold fyGo
    rw [ih, listSwap_length]

/-- The Fisher–Yates body preserves membership. -/
theorem fyGo_mem {α : Type} (js : ℕ → ℕ) :
    ∀ (i : ℕ) (l : List α) (x : α), x ∈ fyGo js l i → x ∈ l := by
  intro i
  induction i with
  | zero => intro l x h; exact h
  | succ i ih =>
    intro l x h
    unfold fyGo at h
    exact listSwap_mem _ _ _ _ (ih _ x h)

/-- `fyShuffle` preserves length. -/
theorem fyShuffle_length {α : Type} (js : ℕ → ℕ) (l : List α) :
    (fyShuffle js l).length = l.length := fyGo_length js _ l

/-- `fyShuffle` preserves membership. -/
theorem fyShuffle_mem {α : Type} (js : ℕ → ℕ) (l : List α) (x : α)
    (h : x ∈ fyShuffle js l) : x ∈ l := fyGo_mem js _ l x h

/-- Reduction equations for the block-swap write loop. -/
theorem blockSwapGo_nil_left {α : Type} (s : ℕ) (b2 t1 t2 : List α) :
    blockSwapGo s [] b2 t1 t2 = (t1, t2) := by cases b2 <;> rfl

theorem blockSwapGo_nil_right {α : Type} (s : ℕ) (a : α) (b1 t1 t2 : List α) :
    blockSwapGo s (a :: b1) [] t1 t2 = (t1, t2) := rfl

theorem blockSwapGo_cons {α : Type} (s : ℕ) (a b : α) (b1 b2 t1 t2 : List α) :
    blockSwapGo s (a :: b1) (b :: b2) t1 t2 =
      blockSwapGo (s + 1) b1 b2 (t1.set s b) (t2.set s a) := rfl

/-- The block-swap write loop preserves the target lengths. -/
theorem blockSwapGo_length {α : Type} :
    ∀ (b1 b2 t1 t2 : List α) (s : ℕ),
      (blockSwapGo s b1 b2 t1 t2).1.length = t1.length ∧
      (blockSwapGo s b1 b2 t1 t2).2.length = t2.length := by
  intro b1
  induction b1 with
  | nil => intro b2 t1 t2 s; rw [blockSwapGo_nil_left]; exact ⟨rfl, rfl⟩
  | cons a b1 ih =>
    intro b2 t1 t2 s
    cases b2 with
    | nil => rw [blockSwapGo_nil_right]; exact ⟨rfl, rfl⟩
    | cons b b2 =>
      rw [blockSwapGo_cons]
      have h := ih b2 (t1.set s b) (t2.set s a) (s + 1)
      simp [h.1, h.2]

/-- Every element of a block-swap result is an original target element
or a written block element. -/
theorem blockSwapGo_mem {α : Type} :
    ∀ (b1 b2 t1 t2 : List α) (s : ℕ) (x : α),
      (x ∈ (blockSwapGo s b1 b2 t1 t2).1 → x ∈ t1 ∨ x ∈ b2) ∧
      (x ∈ (blockSwapGo s b1 b2 t1 t2).2 → x ∈ t2 ∨ x ∈ b1) := by
  intro b1
  induction b1 with
  | nil =>
    intro b2 t1 t2 s x
    rw [blockSwapGo_nil_left]
    exact ⟨fun h => Or.inl h, fun h => Or.inl h⟩
  | cons a b1 ih =>
    intro b2 t1 t2 s x
    cases b2 with
    | nil =>
      rw [blockSwapGo_nil_right]
      exact ⟨fun h => Or.inl h, fun h => Or.inl h⟩
    | cons b b2 =>
      rw [blockSwapGo_cons]
      have h := ih b2 (t1.set s b) (t2.set s a) (s + 1) x
      constructor
      · intro hx
        rcases h.1 hx with h' | h'
        · rcases List.mem_or_eq_of_mem_set h' with h'' | rfl
          · exact Or.inl h''
          · exact Or.inr (List.mem_cons_self _ _)
        · exact Or.inr (List.mem_cons_of_mem b h')
      · intro hx
        rcases h.2 hx with h' | h'
        · rcases List.mem_or_eq_of_mem_set h' with h'' | rfl
          · exact Or.inl h''
          · exact Or.inr (List.mem_cons_self _ _)
        · exact Or.inr (List.mem_cons_of_mem a h')

/-- Per-operator reduction equations of `crossoverOffspring`. -/
theorem crossoverOffspring_uniform (d : CrossDecisions) (cp : ℚ) (p1 p2 : List IColor) :
    crossoverOffspring .uniform d cp p1 p2 =
      if d.crossRoll * 100 < cp ∧ 1 < p1.length then uniformCross d.uniformSwap 0 p1 p2
      else (p1, p2) := rfl

theorem crossoverOffspring_onePoint (d : CrossDecisions) (cp : ℚ) (p1 p2 : List IColor) :
    crossoverOffspring .onePoint d cp p1 p2 =
      if d.crossRoll * 100 < cp ∧ 1 < p1.length then
        (p1.take (randomIntO d.pointA 1 (↑p1.length - 1)).toNat ++
          p2.drop (randomIntO d.pointA 1 (↑p1.length - 1)).toNat,
         p2.take (randomIntO d.pointA 1 (↑p1.length - 1)).toNat ++
          p1.drop (randomIntO d.pointA 1 (↑p1.length - 1)).toNat)
      else (p1, p2) := rfl

theorem crossoverOffspring_twoPoint (d : CrossDecisions) (cp : ℚ) (p1 p2 : List IColor) :
    crossoverOffspring .twoPoint d cp p1 p2 =
      if d.crossRoll * 100 < cp ∧ 1 < p1.length then
        (if p1.length < 3 then (p1, p2)
         else
          ((p1.take (randomIntO d.pointA 1 (↑p1.length - 2)).toNat ++
            ((p2.drop (randomIntO d.pointA 1 (↑p1.length - 2)).toNat).take
              ((randomIntO d.pointB (↑(randomIntO d.pointA 1 (↑p1.length - 2)).toNat + 1)
                (↑p1.length - 1)).toNat - (randomIntO d.pointA 1 (↑p1.length - 2)).toNat)) ++
            p1.drop (randomIntO d.pointB (↑(randomIntO d.pointA 1 (↑p1.length - 2)).toNat + 1)
              (↑p1.length - 1)).toNat,
           p2.take (randomIntO d.pointA 1 (↑p1.length - 2)).toNat ++
            ((p1.drop (randomIntO d.pointA 1 (↑p1.length - 2)).toNat).take
              ((randomIntO d.pointB (↑(randomIntO d.pointA 1 (↑p1.length - 2)).toNat + 1)
                (↑p1.length - 1)).toNat - (randomIntO d.pointA 1 (↑p1.length - 2)).toNat)) ++
            p2.drop (randomIntO d.pointB (↑(randomIntO d.pointA 1 (↑p1.length - 2)).toNat + 1)
              (↑p1.length - 1)).toNat)))
      else (p1, p2) := rfl

theorem crossoverOffspring_block (d : CrossDecisions) (cp : ℚ) (p1 p2 : List IColor) :
    crossoverOffspring .block d cp p1 p2 =
      if d.crossRoll * 100 < cp ∧ 1 < p1.length then
        blockSwapGo (randomIntO d.pointA 0 (↑p1.length - 1)).toNat
          ((p1.drop (randomIntO d.pointA 0 (↑p1.length - 1)).toNat).take
            ((randomIntO d.pointB (↑(randomIntO d.pointA 0 (↑p1.length - 1)).toNat)
              (↑p1.length - 1)).toNat + 1 - (randomIntO d.pointA 0 (↑p1.length - 1)).toNat))
          ((p2.drop (randomIntO d.pointA 0 (↑p1.length - 1)).toNat).take
            ((randomIntO d.pointB (↑(randomIntO d.pointA 0 (↑p1.length - 1)).toNat)
              (↑p1.length - 1)).toNat + 1 - (randomIntO d.pointA 0 (↑p1.length - 1)).toNat))
          p1 p2
      else (p1, p2) := rfl

theorem crossoverOffspring_shuffle (d : CrossDecisions) (cp : ℚ) (p1 p2 : List IColor) :
    crossoverOffspring .shuffle d cp p1 p2 =
      if d.crossRoll * 100 < cp ∧ 1 < p1.length then
        (if p1.length < 3 then (p1, p2)
         else
          (p1.take (randomIntO d.pointA 0 (↑p1.length - 2)).toNat ++
            fyShuffle d.shuffleJs1
              ((p1.drop (randomIntO d.pointA 0 (↑p1.length - 2)).toNat).take
                ((randomIntO d.pointB (↑(randomIntO d.pointA 0 (↑p1.length - 2)).toNat + 1)
                  (↑p1.length - 1)).toNat + 1 - (randomIntO d.pointA 0 (↑p1.length - 2)).toNat)) ++
            p1.drop ((randomIntO d.pointB (↑(randomIntO d.pointA 0 (↑p1.length - 2)).toNat + 1)
              (↑p1.length - 1)).toNat + 1),
           p2.take (randomIntO d.pointA 0 (↑p1.length - 2)).toNat ++
            fyShuffle d.shuffleJs2
              ((p2.drop (randomIntO d.pointA 0 (↑p1.length - 2)).toNat).take
                ((randomIntO d.pointB (↑(randomIntO d.pointA 0 (↑p1.length - 2)).toNat + 1)
                  (↑p1.length - 1)).toNat + 1 - (randomIntO d.pointA 0 (↑p1.length - 2)).toNat)) ++
            p2.drop ((randomIntO d.pointB (↑(randomIntO d.pointA 0 (↑p1.length - 2)).toNat + 1)
              (↑p1.length - 1)).toNat + 1)))
      else (p1, p2) := rfl

/-- C7: for every crossover operator (one-point, two-point, block,
uniform, shuffle — and also when the probability gate skips crossover),
every pair of 5-color parents and every draw of the random decisions,
both offspring of the crossover step (before mutation) have exactly 5
genes, and every gene of each offspring is a gene of one of the two
parents. -/
theorem crossover_closure (op : CrossoverOperation) (d : CrossDecisions)
    (crossoverProbability : ℚ) (p1 p2 : List IColor)
    (h1 : p1.length = 5) (h2 : p2.length = 5) :
    (crossoverOffspring op d crossoverProbability p1 p2).1.length = 5 ∧
    (crossoverOffspring op d crossoverProbability p1 p2).2.length = 5 ∧
    (∀ g ∈ (crossoverOffspring op d crossoverProbability p1 p2).1, g ∈ p1 ∨ g ∈ p2) ∧
    (∀ g ∈ (crossoverOffspring op d crossoverProbability p1 p2).2, g ∈ p1 ∨ g ∈ p2) := by
  have hnocross : ((p1, p2) : List IColor × List IColor).1.length = 5 ∧
      ((p1, p2) : List IColor × List IColor).2.length = 5 ∧
      (∀ g ∈ ((p1, p2) : List IColor × List IColor).1, g ∈ p1 ∨ g ∈ p2) ∧
      (∀ g ∈ ((p1, p2) : List IColor × List IColor).2, g ∈ p1 ∨ g ∈ p2) :=
    ⟨h1, h2, fun g hg => Or.inl hg, fun g hg => Or.inr hg⟩
  cases op with
  | uniform =>
    rw [crossoverOffspring_uniform]
    by_cases hcr : d.crossRoll * 100 < crossoverProbability ∧ 1 < p1.length
    · rw [if_pos hcr]
      have hl := uniformCross_length d.uniformSwap 0 p1 p2
      have hm := uniformCross_mem d.uniformSwap 0 p1 p2
      exact ⟨by rw [hl.1, h1], by rw [hl.2, h2], hm.1, hm.2⟩
    · rw [if_neg hcr]; exact hnocross
  | onePoint =>
    rw [crossoverOffspring_onePoint]
    by_cases hcr : d.crossRoll * 100 < crossoverProbability ∧ 1 < p1.length
    · rw [if_pos hcr]
      have hb := randomIntO_mem d.pointA 1 (p1.length - 1) (by rw [h1]; norm_num)
      rw [h1] at hb
      refine ⟨?_, ?_, ?_, ?_⟩
      · simp only [List.length_append, List.length_take, List.length_drop, h1, h2]
        omega
      · simp only [List.length_append, List.length_take, List.length_drop, h1, h2]
        omega
      · intro g hg
        rcases List.mem_append.mp hg with hg' | hg'
        · exact Or.inl (List.take_subset _ _ hg')
        · exact Or.inr (List.drop_subset _ _ hg')
      · intro g hg
        rcases List.mem_append.mp hg with hg' | hg'
        · exact Or.inr (List.take_subset _ _ hg')
        · exact Or.inl (List.drop_subset _ _ hg')
    · rw [if_neg hcr]; exact hnocross
  | twoPoint =>
    rw [crossoverOffspring_twoPoint]
    by_cases hcr : d.crossRoll * 100 < crossoverProbability ∧ 1 < p1.length
    · rw [if_pos hcr, if_neg (show ¬ p1.length < 3 by omega)]
      have hb1 := randomIntO_mem d.pointA 1 (p1.length - 2) (by rw [h1]; norm_num)
      have hb2 := randomIntO_mem d.pointB
        ((randomIntO d.pointA 1 (↑p1.length - 2)).toNat + 1) (p1.length - 1)
        (by rw [h1] at hb1 ⊢; omega)
      rw [h1] at hb1 hb2
      refine ⟨?_, ?_, ?_, ?_⟩
      · simp only [List.length_append, List.length_take, List.length_drop, h1, h2]
        omega
      · simp only [List.length_append, List.length_take, List.length_drop, h1, h2]
        omega
      · intro g hg
        rcases List.mem_append.mp hg with hg' | hg'
        · rcases List.mem_append.mp hg' with hg'' | hg''
          · exact Or.inl (List.take_subset _ _ hg'')
          · exact Or.inr (List.drop_subset _ _ (List.take_subset _ _ hg''))
        · exact Or.inl (List.drop_subset _ _ hg')
      · intro g hg
        rcases List.mem_append.mp hg with hg' | hg'
        · rcases List.mem_append.mp hg' with hg'' | hg''
          · exact Or.inr (List.take_subset _ _ hg'')
          · exact Or.inl (List.drop_subset _ _ (List.take_subset _ _ hg''))
        · exact Or.inr (List.drop_subset _ _ hg')
    · rw [if_neg hcr]; exact hnocross
  | block =>
    rw [crossoverOffspring_block]
    by_cases hcr : d.crossRoll * 100 < crossoverProbability ∧ 1 < p1.length
    · rw [if_pos hcr]
      refine ⟨?_, ?_, ?_, ?_⟩
      · rw [(blockSwapGo_length _ _ p1 p2 _).1, h1]
      · rw [(blockSwapGo_length _ _ p1 p2 _).2, h2]
      · intro g hg
        rcases (blockSwapGo_mem _ _ p1 p2 _ g).1 hg with h' | h'
        · exact Or.inl h'
        · exact Or.inr (List.drop_subset _ _ (List.take_subset _ _ h'))
      · intro g hg
        rcases (blockSwapGo_mem _ _ p1 p2 _ g).2 hg with h' | h'
        · exact Or.inr h'
        · exact Or.inl (List.drop_subset _ _ (List.take_subset _ _ h'))
    · rw [if_neg hcr]; exact hnocross
  | shuffle =>
    rw [crossoverOffspring_shuffle]
    by_cases hcr : d.crossRoll * 100 < crossoverProbability ∧ 1 < p1.length
    · rw [if_pos hcr, if_neg (show ¬ p1.length < 3 by omega)]
      have hb1 := randomIntO_mem d.pointA 0 (p1.length - 2) (by rw [h1]; norm_num)
      have hb2 := randomIntO_mem d.pointB
        ((randomIntO d.pointA 0 (↑p1.length - 2)).toNat + 1) (p1.length - 1)
        (by rw [h1] at hb1 ⊢; omega)
      rw [h1] at hb1 hb2
      refine ⟨?_, ?_, ?_, ?_⟩
      · simp only [List.length_append, List.length_take, List.length_drop,
          fyShuffle_length, h1, h2]
        omega
      · simp only [List.length_append, List.length_take, List.length_drop,
          fyShuffle_length, h1, h2]
        omega
      · intro g hg
        rcases List.mem_append.mp hg with hg' | hg'
        · rcases List.mem_append.mp hg' with hg'' | hg''
          · exact Or.inl (List.take_subset _ _ hg'')
          · exact Or.inl (List.drop_subset _ _ (List.take_subset _ _
              (fyShuffle_mem _ _ _ hg'')))
        · exact Or.inl (List.drop_subset _ _ hg')
      · intro g hg
        rcases List.mem_append.mp hg with hg' | hg'
        · rcases List.mem_append.mp hg' with hg'' | hg''
          · exact Or.inr (List.take_subset _ _ hg'')
          · exact Or.inr (List.drop_subset _ _ (List.take_subset _ _
              (fyShuffle_mem _ _ _ hg'')))
        · exact Or.inr (List.drop_subset _ _ hg')
    · rw [if_neg hcr]; exact hnocross

/-- Witness for C7 at a concrete operator, decision draw and parents. -/
theorem crossover_closure_witness :
    (crossoverOffspring .uniform ⟨0, fun _ => true, 0, 0, id, id⟩ 70 paletteA paletteB).1.length = 5 ∧
    (crossoverOffspring .uniform ⟨0, fun _ => true, 0, 0, id, id⟩ 70 paletteA paletteB).2.length = 5 ∧
    (∀ g ∈ (crossoverOffspring .uniform ⟨0, fun _ => true, 0, 0, id, id⟩ 70 paletteA paletteB).1,
      g ∈ paletteA ∨ g ∈ paletteB) ∧
    (∀ g ∈ (crossoverOffspring .uniform ⟨0, fun _ => true, 0, 0, id, id⟩ 70 paletteA paletteB).2,
      g ∈ paletteA ∨ g ∈ paletteB) :=
  crossover_closure .uniform ⟨0, fun _ => true, 0, 0, id, id⟩ 70 paletteA paletteB
    (by decide) (by decide)

/-! ## The path optimizer (claims C8 and C10) -/

/-- The graph has exactly one node per unique color. -/
theorem buildColorGraph_length (env : ColorEnv) (colors : List String) :
    (buildColorGraph env colors).length = (dedupFirst colors).length := by
  unfold buildColorGraph
  by_cases h : (dedupFirst colors).length < 2
  · rw [if_pos h]
    rcases hu : dedupFirst colors with _ | ⟨u, _ | ⟨v, rest⟩⟩ <;> simp_all <;> omega
  · rw [if_neg h]
    simp

/-- C8: an input list of at least 2 colors that deduplicates to fewer
than 2 unique colors makes `findOptimalColorPath` return the input list
unchanged with the `Infinity` sentinel (the graph has fewer than 2
nodes). -/
theorem path_degenerate_input (env : ColorEnv) (colors : List String)
    (iterations : ℕ) (shuffleJs : ℕ → ℕ) (mutDs : ℕ → ℕ × ℕ)
    (h2 : 2 ≤ colors.length) (hu : (dedupFirst colors).length < 2) :
    findOptimalColorPath env colors iterations shuffleJs mutDs =
      .ok ⟨colors, .posInf⟩ := by
  unfold findOptimalColorPath
  rw [if_neg (by omega)]
  have hg : (buildColorGraph env colors).length < 2 := by
    rw [buildColorGraph_length]; exact hu
  simp only [hg, if_pos]

/-- Witness for C8: `["#fff", "#fff"]` deduplicates to one node and
returns the 2-element input unchanged with fitness `Infinity`. -/
theorem path_degenerate_input_witness :
    findOptimalColorPath testEnv ["#fff", "#fff"] 10000 id (fun _ => (0, 0)) =
      .ok ⟨["#fff", "#fff"], .posInf⟩ :=
  path_degenerate_input testEnv ["#fff", "#fff"] 10000 id (fun _ => (0, 0))
    (by decide) (by decide)

/-- Every distance the collection loop returns is finite. -/
theorem collectDistances_fin (graph : ColorGraph) :
    ∀ (path : List String) (ds : List JsVal), collectDistances graph path = some ds →
      ∀ v ∈ ds, ∃ q : ℚ, v = .fin q := by
  intro path
  induction path with
  | nil => intro ds h v hv; cases h; cases hv
  | cons c rest ih =>
    intro ds h v hv
    cases rest with
    | nil => cases h; cases hv
    | cons n rest' =>
      unfold collectDistances at h
      split at h
      · cases h
      · rename_i d heq
        split at h
        · cases h
        · rename_i hfin
          cases hc : collectDistances graph (n :: rest') with
          | none => simp [hc] at h
          | some ds' =>
            rw [hc] at h
            simp only [Option.map] at h
            cases h
            rcases List.mem_cons.mp hv with rfl | hv'
            · cases v with
              | fin q => exact ⟨q, rfl⟩
              | posInf => simp [JsVal.isFiniteB] at hfin
              | negInf => simp [JsVal.isFiniteB] at hfin
              | nan => simp [JsVal.isFiniteB] at hfin
            · exact ih ds' hc v hv'

/-- Folding `add` over finite values from a finite seed stays finite. -/
theorem foldl_add_fin (l : List JsVal) (hl : ∀ v ∈ l, ∃ q : ℚ, v = .fin q) :
    ∀ a : ℚ, ∃ s : ℚ, l.foldl JsVal.add (.fin a) = .fin s := by
  induction l with
  | nil => intro a; exact ⟨a, rfl⟩
  | cons v vs ih =>
    intro a
    obtain ⟨q, rfl⟩ := hl v (List.mem_cons_self _ _)
    exact ih (fun w hw => hl w (List.mem_cons_of_mem _ hw)) (a + q)

/-- Folding the squared deviations from a nonnegative finite seed stays
finite and nonnegative. -/
theorem foldl_sq_fin_nonneg (m : ℚ) (l : List JsVal)
    (hl : ∀ v ∈ l, ∃ q : ℚ, v = .fin q) :
    ∀ a : ℚ, 0 ≤ a →
      ∃ s : ℚ, l.foldl
        (fun acc val => JsVal.add acc (JsVal.mul (JsVal.sub val (.fin m))
          (JsVal.sub val (.fin m)))) (.fin a) = .fin s ∧ 0 ≤ s := by
  induction l with
  | nil => intro a ha; exact ⟨a, rfl, ha⟩
  | cons v vs ih =>
    intro a ha
    obtain ⟨q, rfl⟩ := hl v (List.mem_cons_self _ _)
    have hstep : JsVal.add (.fin a) (JsVal.mul (JsVal.sub (.fin q) (.fin m))
        (JsVal.sub (.fin q) (.fin m))) = .fin (a + (q - m) * (q - m)) := by
      simp only [JsVal.sub, JsVal.add, JsVal.neg, JsVal.mul, JsVal.fin.injEq]
      ring
    have hnn : 0 ≤ a + (q - m) * (q - m) := by nlinarith [mul_self_nonneg (q - m)]
    simpa [hstep] using
      ih (fun w hw => hl w (List.mem_cons_of_mem _ hw)) (a + (q - m) * (q - m)) hnn

/-- `calculatePathFitness` never produces NaN or `-Infinity`: every
result is `Infinity` or a finite value. -/
theorem calculatePathFitness_classify (graph : ColorGraph) (path : List String) :
    calculatePathFitness graph path = .posInf ∨
      ∃ q : ℚ, calculatePathFitness graph path = .fin q := by
  unfold calculatePathFitness
  by_cases h2 : path.length < 2
  · rw [if_pos h2]; exact Or.inr ⟨0, rfl⟩
  · rw [if_neg h2]
    split
    · exact Or.inl rfl
    · rename_i ds hc
      dsimp only
      by_cases hlen : ds.length = 0
      · rw [if_pos hlen]; exact Or.inr ⟨0, rfl⟩
      · rw [if_neg hlen]
        have hfin := collectDistances_fin graph path ds hc
        obtain ⟨s, hs⟩ := foldl_add_fin ds hfin 0
        rw [hs]
        have hL : ((ds.length : ℚ)) ≠ 0 := Nat.cast_ne_zero.mpr hlen
        have hLpos : (0 : ℚ) < (ds.length : ℚ) := by positivity
        have hmean : JsVal.div (.fin s) (.fin (ds.length : ℚ)) =
            .fin (s / (ds.length : ℚ)) := by
          simp [JsVal.div, hL]
        rw [hmean]
        by_cases hm0 : (JsVal.fin (s / (ds.length : ℚ))) = .fin 0
        · rw [if_pos hm0]; exact Or.inl rfl
        · rw [if_neg hm0]
          have hmq : s / (ds.length : ℚ) ≠ 0 := by
            intro h; exact hm0 (by rw [h])
          obtain ⟨sv, hsv, hsvnn⟩ :=
            foldl_sq_fin_nonneg (s / (ds.length : ℚ)) ds hfin 0 le_rfl
          rw [hsv]
          have hvar : JsVal.div (.fin sv) (.fin (ds.length : ℚ)) =
              .fin (sv / (ds.length : ℚ)) := by
            simp [JsVal.div, hL]
          rw [hvar]
          have hvnn : ¬ (sv / (ds.length : ℚ) < 0) := by
            push_neg
            positivity
          have hsqrt : JsVal.sqrt (.fin (sv / (ds.length : ℚ))) =
              .fin (Rat.sqrt (sv / (ds.length : ℚ))) := by
            simp [JsVal.sqrt, hvnn]
          rw [hsqrt]
          refine Or.inr ⟨Rat.sqrt (sv / (ds.length : ℚ)) / (s / (ds.length : ℚ)) +
            (1/10) / (s / (ds.length : ℚ)), ?_⟩
          simp [JsVal.div, JsVal.add, hmq]

/-- The improvement loop of `findOptimalColorPath` keeps the best
fitness finite. -/
theorem pathLoop_finite (graph : ColorGraph) (mutDs : ℕ → ℕ × ℕ) :
    ∀ (fuel i : ℕ) (bp : List String) (bf : JsVal),
      JsVal.isFiniteB bf = true →
      JsVal.isFiniteB (pathLoop graph mutDs fuel i bp bf).2 = true := by
  intro fuel
  induction fuel with
  | zero => intro i bp bf hbf; exact hbf
  | succ fuel ih =>
    intro i bp bf hbf
    unfold pathLoop
    by_cases hk : (JsVal.isFiniteB (calculatePathFitness graph (mutatePath (mutDs i) bp)) &&
        JsVal.lt (calculatePathFitness graph (mutatePath (mutDs i) bp)) bf) = true
    · rw [if_pos hk]
      exact ih (i + 1) _ _ (Bool.and_elim_left hk)
    · rw [if_neg hk]
      exact ih (i + 1) bp bf hbf

/-- C10: `calculatePathFitness` is total and never throws or divides by
zero: a path with fewer than 2 colors scores 0; a missing or non-finite
edge in any consecutive pair yields `Infinity`; a zero mean of the
collected distances yields `Infinity`; every result is `Infinity` or
finite (never NaN or `-Infinity`); the improvement loop of
`findOptimalColorPath` preserves finiteness of the best fitness, and
every `findOptimalColorPath` result carries a fitness that is finite or
the `Infinity` sentinel. -/
theorem pathFitness_total (graph0 : ColorGraph) (path0 : List String) :
    (∀ (graph : ColorGraph) (path : List String), path.length < 2 →
      calculatePathFitness graph path = .fin 0) ∧
    (∀ (graph : ColorGraph) (path : List String), ¬ path.length < 2 →
      collectDistances graph path = none →
      calculatePathFitness graph path = .posInf) ∧
    (∀ (graph : ColorGraph) (path : List String) (ds : List JsVal),
      ¬ path.length < 2 → collectDistances graph path = some ds →
      ds.length ≠ 0 → ds.foldl JsVal.add (.fin 0) = .fin 0 →
      calculatePathFitness graph path = .posInf) ∧
    (calculatePathFitness graph0 path0 = .posInf ∨
      ∃ q : ℚ, calculatePathFitness graph0 path0 = .fin q) ∧
    (∀ (mutDs : ℕ → ℕ × ℕ) (fuel i : ℕ) (bp : List String) (bf : JsVal),
      JsVal.isFiniteB bf = true →
      JsVal.isFiniteB (pathLoop graph0 mutDs fuel i bp bf).2 = true) ∧
    (∀ (env : ColorEnv) (colors : List String) (iterations : ℕ)
      (shuffleJs : ℕ → ℕ) (mutDs : ℕ → ℕ × ℕ) (r : PathResult),
      findOptimalColorPath env colors iterations shuffleJs mutDs = .ok r →
      r.fitness = .posInf ∨ ∃ q : ℚ, r.fitness = .fin q) := by
  refine ⟨?_, ?_, ?_, calculatePathFitness_classify graph0 path0,
    fun mutDs => pathLoop_finite graph0 mutDs, ?_⟩
  · intro graph path h
    unfold calculatePathFitness
    rw [if_pos h]
  · intro graph path h hnone
    unfold calculatePathFitness
    rw [if_neg h, hnone]
  · intro graph path ds h hsome hlen hsum
    unfold calculatePathFitness
    rw [if_neg h]
    split
    · rename_i hnone; rw [hsome] at hnone
    · rename_i ds' hsome'
      rw [hsome] at hsome'
      cases hsome'
      dsimp only
      rw [if_neg hlen, hsum]
      have hL : ((ds.length : ℚ)) ≠ 0 := Nat.cast_ne_zero.mpr hlen
      have hmean : JsVal.div (.fin 0) (.fin (ds.length : ℚ)) = .fin 0 := by
        simp [JsVal.div, hL]
      rw [hmean, if_pos rfl]
  · intro env colors iterations shuffleJs mutDs r hr
    unfold findOptimalColorPath at hr
    by_cases h2 : colors.length < 2
    · rw [if_pos h2] at hr; cases hr
    · rw [if_neg h2] at hr
      by_cases hg : (buildColorGraph env colors).length < 2
      · rw [if_pos hg] at hr
        cases hr
        exact Or.inl rfl
      · rw [if_neg hg] at hr
        by_cases hf : JsVal.isFiniteB (calculatePathFitness (buildColorGraph env colors)
            (generateInitialPath shuffleJs colors)) = true
        · rw [if_neg (by simp [hf])] at hr
          cases hr
          have := pathLoop_finite (buildColorGraph env colors) mutDs iterations 0
            (generateInitialPath shuffleJs colors) _ hf
          cases hfin : (pathLoop (buildColorGraph env colors) mutDs iterations 0
              (generateInitialPath shuffleJs colors)
              (calculatePathFitness (buildColorGraph env colors)
                (generateInitialPath shuffleJs colors))).2 with
          | fin q => exact Or.inr ⟨q, by simp [hfin]⟩
          | posInf => rw [hfin] at this; cases this
          | negInf => rw [hfin] at this; cases this
          | nan => rw [hfin] at this; cases this
        · rw [if_pos (by simp [hf])] at hr
          cases hr
          exact Or.inl rfl

/-- Witness for C10 at concrete inputs. -/
theorem pathFitness_total_witness :
    calculatePathFitness [] [] = .fin 0 ∧
    (calculatePathFitness [] ["a", "b"] = .posInf ∨
      ∃ q : ℚ, calculatePathFitness [] ["a", "b"] = .fin q) :=
  ⟨(pathFitness_total [] []).1 [] [] (by decide),
   (pathFitness_total [] ["a", "b"]).2.2.2.1⟩

/-! ## Best-is-best for simulated annealing and the genetic algorithm
(claim C6) -/

/-- The fitness values that actually occur in the optimizers: the
`-Infinity` sentinel or a finite value (never NaN, never `+Infinity`). -/
def ValidFit (v : JsVal) : Prop := v = .negInf ∨ ∃ q : ℚ, v = .fin q

theorem validFit_evaluate (env : ColorEnv) (primary : IColor) (palette : List IColor) :
    ValidFit (evaluatePaletteSolution env primary palette) :=
  evaluate_negInf_or_fin env primary palette

theorem ge_refl_valid (a : JsVal) (ha : ValidFit a) : JsVal.ge a a = true := by
  rcases ha with rfl | ⟨q, rfl⟩ <;> simp [JsVal.ge, JsVal.le]

theorem ge_negInf_valid (a : JsVal) (ha : ValidFit a) : JsVal.ge a .negInf = true := by
  rcases ha with rfl | ⟨q, rfl⟩ <;> simp [JsVal.ge, JsVal.le]

theorem ge_trans_valid (a b c : JsVal) (ha : ValidFit a) (hb : ValidFit b)
    (hc : ValidFit c) (hab : JsVal.ge a b = true) (hbc : JsVal.ge b c = true) :
    JsVal.ge a c = true := by
  rcases ha with rfl | ⟨qa, rfl⟩ <;> rcases hb with rfl | ⟨qb, rfl⟩ <;>
    rcases hc with rfl | ⟨qc, rfl⟩ <;>
      simp_all [JsVal.ge, JsVal.le] <;> linarith

theorem ge_of_lt_valid (a b : JsVal) (ha : ValidFit a) (hb : ValidFit b)
    (hab : JsVal.lt a b = true) : JsVal.ge b a = true := by
  rcases ha with rfl | ⟨qa, rfl⟩ <;> rcases hb with rfl | ⟨qb, rfl⟩ <;>
    simp_all [JsVal.ge, JsVal.le, JsVal.lt] <;> linarith

theorem ge_of_not_lt_valid (a : JsVal) (ha : ValidFit a) (qb : ℚ)
    (hab : ¬ JsVal.lt a (.fin qb) = true) : JsVal.ge a (.fin qb) = true := by
  rcases ha with rfl | ⟨qa, rfl⟩
  · exact absurd (by simp [JsVal.lt]) hab
  · simp only [JsVal.lt, decide_eq_true_eq] at hab
    simp only [JsVal.ge, JsVal.le, decide_eq_true_eq]
    linarith

/-- `updateBest` keeps a valid fitness, never regresses, and dominates
every member of the scanned population. -/
theorem updateBest_spec : ∀ (pop : List Individual) (b : Individual),
    ValidFit b.fitness → (∀ ind ∈ pop, ValidFit ind.fitness) →
    ValidFit (updateBest pop b).fitness ∧
    JsVal.ge (updateBest pop b).fitness b.fitness = true ∧
    ∀ ind ∈ pop, JsVal.ge (updateBest pop b).fitness ind.fitness = true := by
  intro pop
  induction pop with
  | nil =>
    intro b hb _
    exact ⟨hb, ge_refl_valid _ hb, by simp⟩
  | cons ind rest ih =>
    intro b hb hpop
    have hind := hpop ind (List.mem_cons_self _ _)
    have hrest := fun i hi => hpop i (List.mem_cons_of_mem _ hi)
    have hstep : updateBest (ind :: rest) b =
        updateBest rest
          (if JsVal.isFiniteB ind.fitness && JsVal.lt b.fitness ind.fitness then ind else b) := rfl
    by_cases hc : (JsVal.isFiniteB ind.fitness && JsVal.lt b.fitness ind.fitness) = true
    · rw [hstep, if_pos hc]
      obtain ⟨h1, h2, h3⟩ := ih ind hind hrest
      have hgeb : JsVal.ge ind.fitness b.fitness = true :=
        ge_of_lt_valid _ _ hb hind (Bool.and_elim_right hc)
      refine ⟨h1, ge_trans_valid _ _ _ h1 hind hb h2 hgeb, ?_⟩
      intro i hi
      rcases List.mem_cons.mp hi with rfl | hi'
      · exact h2
      · exact h3 i hi'
    · rw [hstep, if_neg hc]
      obtain ⟨h1, h2, h3⟩ := ih b hb hrest
      refine ⟨h1, h2, ?_⟩
      intro i hi
      rcases List.mem_cons.mp hi with rfl | hi'
      · rcases hind with hneg | ⟨q, hq⟩
        · rw [hneg]
          exact ge_negInf_valid _ h1
        · have hnlt : ¬ JsVal.lt b.fitness (.fin q) = true := by
            intro hlt
            exact hc (by rw [hq]; simp [JsVal.isFiniteB, hlt])
          rw [hq]
          exact ge_trans_valid _ _ _ h1 hb (Or.inr ⟨q, rfl⟩) h2
            (ge_of_not_lt_valid b.fitness hb q hnlt)
      · exact h3 i hi'

/-- Members of the stable sort are members of the population. -/
theorem insertByFitness_mem (a : Individual) (l : List Individual) (x : Individual)
    (h : x ∈ insertByFitness a l) : x = a ∨ x ∈ l := by
  induction l with
  | nil => simpa [insertByFitness] using h
  | cons y ys ih =>
    unfold insertByFitness at h
    by_cases hc : JsVal.ge y.fitness a.fitness = true
    · rw [if_pos hc] at h
      rcases List.mem_cons.mp h with rfl | h'
      · exact Or.inr (List.mem_cons_self _ _)
      · rcases ih h' with rfl | h''
        · exact Or.inl rfl
        · exact Or.inr (List.mem_cons_of_mem _ h'')
    · rw [if_neg hc] at h
      rcases List.mem_cons.mp h with rfl | h'
      · exact Or.inl rfl
      · exact Or.inr h'

theorem sortByFitnessDesc_mem (pop : List Individual) (x : Individual)
    (h : x ∈ sortByFitnessDesc pop) : x ∈ pop := by
  unfold sortByFitnessDesc at h
  induction pop generalizing x with
  | nil => simpa using h
  | cons y ys ih =>
    simp only [List.foldr_cons] at h
    rcases insertByFitness_mem y _ x h with rfl | h'
    · exact List.mem_cons_self _ _
    · exact List.mem_cons_of_mem _ (ih x h')

/-- Every individual the fill phase produces carries an
`evaluatePaletteSolution` fitness, hence a valid one. -/
theorem fillOffspring_valid (env : ColorEnv) (primary : IColor) (op : CrossoverOperation)
    (cp mp : ℚ) (ma : ℤ) (pop : List Individual) (d : GADecisions) :
    ∀ (need k : ℕ),
      ∀ ind ∈ fillOffspring env primary op cp mp ma pop d need k,
        ValidFit ind.fitness := by
  intro need
  induction need using Nat.strong_induction_on with
  | _ need ih =>
    intro k ind hind
    match need with
    | 0 => cases hind
    | 1 =>
      unfold fillOffspring at hind
      rcases List.mem_cons.mp hind with rfl | h'
      · exact validFit_evaluate env primary _
      · cases h'
    | need' + 2 =>
      unfold fillOffspring at hind
      rcases List.mem_cons.mp hind with rfl | h'
      · exact validFit_evaluate env primary _
      · rcases List.mem_cons.mp h' with rfl | h''
        · exact validFit_evaluate env primary _
        · exact ih need' (by omega) (k + 1) ind h''

/-- Every individual of the next generation carries a valid fitness. -/
theorem nextGeneration_valid (env : ColorEnv) (primary : IColor) (op : CrossoverOperation)
    (cp mp : ℚ) (ma : ℤ) (ec ps : ℕ) (pop : List Individual) (d : GADecisions)
    (hpop : ∀ ind ∈ pop, ValidFit ind.fitness) :
    ∀ ind ∈ nextGeneration env primary op cp mp ma ec ps pop d,
      ValidFit ind.fitness := by
  intro ind hind
  unfold nextGeneration at hind
  rcases List.mem_append.mp hind with h' | h'
  · by_cases hec : 0 < ec
    · rw [if_pos hec] at h'
      have hmem := List.mem_of_mem_filter h'
      have hmem2 := List.mem_of_mem_take hmem
      rw [if_pos hec] at hmem2
      exact hpop ind (sortByFitnessDesc_mem pop ind hmem2)
    · rw [if_neg hec] at h'
      cases h'
  · exact fillOffspring_valid env primary op cp mp ma _ _ _ _ ind h'

/-- The generation loop keeps the best-ever fitness valid, every
population fitness valid, and the best-ever fitness at or above every
recorded history entry. -/
theorem gaLoop_valid_ge (env : ColorEnv) (primary : IColor) (op : CrossoverOperation)
    (cp mp : ℚ) (ma : ℤ) (θ : ℚ) (ec ps : ℕ) (ds : ℕ → GADecisions) :
    ∀ (fuel iteration : ℕ) (pop : List Individual) (best : Individual)
      (hist : List (List JsVal)),
      ValidFit best.fitness →
      (∀ ind ∈ pop, ValidFit ind.fitness) →
      (∀ gen ∈ hist, ∀ f ∈ gen, ValidFit f ∧ JsVal.ge best.fitness f = true) →
      ValidFit (gaLoop env primary op cp mp ma θ ec ps ds fuel iteration pop best hist).2.2.1.fitness ∧
      (∀ ind ∈ (gaLoop env primary op cp mp ma θ ec ps ds fuel iteration pop best hist).2.1,
        ValidFit ind.fitness) ∧
      (∀ gen ∈ (gaLoop env primary op cp mp ma θ ec ps ds fuel iteration pop best hist).2.2.2,
        ∀ f ∈ gen, ValidFit f ∧
          JsVal.ge (gaLoop env primary op cp mp ma θ ec ps ds fuel iteration pop best hist).2.2.1.fitness f = true) := by
  intro fuel
  induction fuel with
  | zero =>
    intro iteration pop best hist hbest hpop hhist
    exact ⟨hbest, hpop, hhist⟩
  | succ fuel ih =>
    intro iteration pop best hist hbest hpop hhist
    obtain ⟨hb1, hb2, hb3⟩ := updateBest_spec pop best hbest hpop
    have hhist' : ∀ gen ∈ hist ++ [pop.map (fun ind => ind.fitness)],
        ∀ f ∈ gen, ValidFit f ∧
          JsVal.ge (updateBest pop best).fitness f = true := by
      intro gen hgen f hf
      rcases List.mem_append.mp hgen with hg | hg
      · obtain ⟨hv, hge⟩ := hhist gen hg f hf
        exact ⟨hv, ge_trans_valid _ _ _ hb1 hbest hv hb2 hge⟩
      · rcases List.mem_singleton.mp hg with rfl
        obtain ⟨i, hi, rfl⟩ := List.mem_map.mp hf
        exact ⟨hpop i hi, hb3 i hi⟩
    show ValidFit (gaLoop _ _ _ _ _ _ _ _ _ _ (fuel + 1) iteration pop best hist).2.2.1.fitness ∧ _
    unfold gaLoop
    by_cases hterm : gaTermCond θ (updateBest pop best).fitness
        (pop.map (fun ind => ind.fitness)) = true
    · simp only [hterm, if_true]
      exact ⟨hb1, hpop, hhist'⟩
    · simp only [hterm, Bool.false_eq_true, if_false]
      exact ih (iteration + 1) _ _ _ hb1
        (nextGeneration_valid env primary op cp mp ma ec ps pop (ds iteration) hpop)
        hhist'

/-- The initial best-ever scan yields a valid fitness. -/
theorem initBest_valid (env : ColorEnv) (primary : IColor)
    (pop : List Individual) (hpop : ∀ ind ∈ pop, ValidFit ind.fitness) :
    ValidFit (initBest pop).fitness := by
  unfold initBest
  cases pop with
  | nil => exact Or.inl rfl
  | cons i0 rest =>
    exact (updateBest_spec rest i0 (hpop i0 (List.mem_cons_self _ _))
      (fun i hi => hpop i (List.mem_cons_of_mem _ hi))).1

/-- The genetic algorithm's returned best fitness dominates every
recorded history entry. -/
theorem ga_best_ge (env : ColorEnv) (primary : IColor)
    (initPop : List (List IColor)) (maxIter : ℕ) (cp mp : ℚ) (ma : ℤ) (θ : ℚ)
    (op : CrossoverOperation) (ec : ℕ) (ds : ℕ → GADecisions) (r : GAResult)
    (hr : geneticCrossoverOptimization env primary initPop maxIter cp mp ma θ op ec ds = .ok r) :
    ∀ gen ∈ r.fitnessHistory, ∀ f ∈ gen, JsVal.ge r.bestFitness f = true := by
  unfold geneticCrossoverOptimization at hr
  by_cases h2 : initPop.length < 2
  · rw [if_pos h2] at hr; cases hr
  · rw [if_neg h2] at hr
    have hpop0 : ∀ ind ∈ initPop.map (fun palette =>
        (⟨palette, evaluatePaletteSolution env primary palette⟩ : Individual)),
        ValidFit ind.fitness := by
      intro ind hind
      obtain ⟨p, hp, rfl⟩ := List.mem_map.mp hind
      exact validFit_evaluate env primary p
    have hloop := gaLoop_valid_ge env primary op cp mp ma θ ec initPop.length ds
      maxIter 0 _ _ [] (initBest_valid env primary _ hpop0) hpop0 (by simp)
    obtain ⟨hl1, hl2, hl3⟩ := hloop
    obtain ⟨hf1, hf2, hf3⟩ := updateBest_spec _ _ hl1 hl2
    cases hr
    intro gen hgen f hf
    obtain ⟨hv, hge⟩ := hl3 gen hgen f hf
    exact ge_trans_valid _ _ _ hf1 hl1 hv hf2 hge

/-- A true `isFinite` check forces a finite rational payload. -/
theorem isFiniteB_exists_fin (v : JsVal) (h : JsVal.isFiniteB v = true) :
    ∃ q : ℚ, v = .fin q := by
  cases v with
  | fin q => exact ⟨q, rfl⟩
  | posInf => exact absurd h (by decide)
  | negInf => exact absurd h (by decide)
  | nan => exact absurd h (by decide)

/-- Extending a bounded finite history with one more bounded entry. -/
theorem saHist_extend (fhist : List JsVal) (qb qx : ℚ)
    (hh : ∀ h ∈ fhist, ∃ qh : ℚ, h = .fin qh ∧ qh ≤ qb) (hx : qx ≤ qb) :
    ∀ h ∈ fhist ++ [JsVal.fin qx], ∃ qh : ℚ, h = .fin qh ∧ qh ≤ qb := by
  intro h hmem
  rcases List.mem_append.mp hmem with h' | h'
  · exact hh h h'
  · rcases List.mem_singleton.mp h' with rfl
    exact ⟨qx, rfl, hx⟩

/-- Weakening the bound of a bounded finite history. -/
theorem saHist_mono (fhist : List JsVal) (qb qx : ℚ) (hle : qb ≤ qx)
    (hh : ∀ h ∈ fhist, ∃ qh : ℚ, h = .fin qh ∧ qh ≤ qb) :
    ∀ h ∈ fhist, ∃ qh : ℚ, h = .fin qh ∧ qh ≤ qx := by
  intro h hmem
  obtain ⟨qh, he, hq⟩ := hh h hmem
  exact ⟨qh, he, hq.trans hle⟩

/-- The simulated-annealing loop invariant: starting from a finite
current fitness at or below the finite best fitness, with every recorded
history entry finite and at or below the best, the loop returns a finite
best fitness at or above the incoming best that dominates every recorded
history entry. -/
theorem saLoop_spec (env : ColorEnv) (primary : IColor) (step : ℤ)
    (coolingRate minTemperature : ℚ) (decisions : ℕ → SADecision) :
    ∀ (fuel iteration : ℕ) (cur : List IColor) (qc : ℚ) (best : List IColor)
      (qb : ℚ) (temp : ℚ) (fhist : List JsVal) (thist : List ℚ),
      qc ≤ qb →
      (∀ h ∈ fhist, ∃ qh : ℚ, h = .fin qh ∧ qh ≤ qb) →
      ∃ qb' : ℚ, qb ≤ qb' ∧
        (saLoop env primary step coolingRate minTemperature decisions fuel
          iteration cur (.fin qc) best (.fin qb) temp fhist thist).fitness = .fin qb' ∧
        ∀ h ∈ (saLoop env primary step coolingRate minTemperature decisions fuel
          iteration cur (.fin qc) best (.fin qb) temp fhist thist).fitnessHistory,
          ∃ qh : ℚ, h = .fin qh ∧ qh ≤ qb' := by
  intro fuel
  induction fuel with
  | zero =>
    intro iteration cur qc best qb temp fhist thist hcb hhist
    exact ⟨qb, le_rfl, rfl, hhist⟩
  | succ fuel ih =>
    intro iteration cur qc best qb temp fhist thist hcb hhist
    simp only [saLoop]
    by_cases htemp : minTemperature < temp
    · rw [if_neg (not_not_intro htemp)]
      by_cases hm : (computeNeighbourMovesSA cur step).length = 0
      · rw [dif_pos hm]
        exact ⟨qb, le_rfl, rfl, hhist⟩
      · rw [dif_neg hm]
        cases hnf : evaluatePaletteSolution env primary (applyMoveSA env cur
            ((computeNeighbourMovesSA cur step).get
              ⟨(decisions iteration).moveIdx % (computeNeighbourMovesSA cur step).length,
                Nat.mod_lt _ (Nat.pos_of_ne_zero hm)⟩)) with
        | fin qn =>
          simp only [JsVal.isFiniteB, Bool.not_true, Bool.false_eq_true, if_false]
          cases hacc : JsVal.lt (JsVal.fin 0) (JsVal.sub (.fin qn) (.fin qc)) ||
              (decisions iteration).accept with
          | false =>
            simp only [hacc, Bool.false_eq_true, if_false, Bool.false_and]
            exact ih (iteration + 1) cur qc best qb (temp * coolingRate)
              (fhist ++ [.fin qc]) (thist ++ [temp]) hcb
              (saHist_extend fhist qb qc hhist hcb)
          | true =>
            simp only [hacc, eq_self_iff_true, if_true, Bool.true_and, JsVal.lt]
            by_cases hI : qb < qn
            · simp only [decide_eq_true hI, eq_self_iff_true, if_true]
              refine Exists.imp (fun qb' hq => ⟨(le_of_lt hI).trans hq.1, hq.2⟩)
                (ih (iteration + 1) _ qn _ qn (temp * coolingRate)
                  (fhist ++ [.fin qn]) (thist ++ [temp]) le_rfl
                  (saHist_extend fhist qn qn
                    (saHist_mono fhist qb qn (le_of_lt hI) hhist) le_rfl))
            · simp only [decide_eq_false hI, Bool.false_eq_true, if_false]
              exact ih (iteration + 1) _ qn best qb (temp * coolingRate)
                (fhist ++ [.fin qn]) (thist ++ [temp]) (le_of_not_lt hI)
                (saHist_extend fhist qb qn hhist (le_of_not_lt hI))
        | posInf =>
          simp only [JsVal.isFiniteB, Bool.not_false, eq_self_iff_true, if_true]
          exact ih (iteration + 1) cur qc best qb (temp * coolingRate)
            (fhist ++ [.fin qc]) (thist ++ [temp]) hcb
            (saHist_extend fhist qb qc hhist hcb)
        | negInf =>
          simp only [JsVal.isFiniteB, Bool.not_false, eq_self_iff_true, if_true]
          exact ih (iteration + 1) cur qc best qb (temp * coolingRate)
            (fhist ++ [.fin qc]) (thist ++ [temp]) hcb
            (saHist_extend fhist qb qc hhist hcb)
        | nan =>
          simp only [JsVal.isFiniteB, Bool.not_false, eq_self_iff_true, if_true]
          exact ih (iteration + 1) cur qc best qb (temp * coolingRate)
            (fhist ++ [.fin qc]) (thist ++ [temp]) hcb
            (saHist_extend fhist qb qc hhist hcb)
    · rw [if_pos htemp]
      exact ⟨qb, le_rfl, rfl, hhist⟩

/-- The simulated-annealing result's fitness dominates every recorded
history entry. -/
theorem sa_best_ge (env : ColorEnv) (primary : IColor) (init : List IColor)
    (maxIterations : ℕ) (T0 coolingRate minTemperature : ℚ) (step : ℤ)
    (decisions : ℕ → SADecision) (r : SAResult)
    (hr : simulatedAnnealingOptimization env primary init maxIterations T0
      coolingRate minTemperature step decisions = .ok r) :
    ∀ h ∈ r.fitnessHistory, JsVal.ge r.fitness h = true := by
  unfold simulatedAnnealingOptimization at hr
  by_cases h5 : init.length ≠ 5
  · rw [if_pos h5] at hr
    cases hr
  · rw [if_neg h5] at hr
    dsimp only at hr
    cases hne : JsVal.isFiniteB (evaluatePaletteSolution env primary init) with
    | false =>
      rw [hne] at hr
      simp only [Bool.not_false, eq_self_iff_true, if_true] at hr
      cases hr
      intro h hmem
      rcases List.mem_singleton.mp hmem with rfl
      rfl
    | true =>
      obtain ⟨q0, hq0⟩ := isFiniteB_exists_fin _ hne
      rw [hq0] at hr
      simp only [JsVal.isFiniteB, Bool.not_true, Bool.false_eq_true, if_false] at hr
      obtain ⟨qb', hle, hfit, hhist⟩ := saLoop_spec env primary step coolingRate
        minTemperature decisions maxIterations 0 init q0 init q0 T0 [.fin q0] [T0]
        le_rfl (by
          intro h hmem
          rcases List.mem_singleton.mp hmem with rfl
          exact ⟨q0, rfl, le_rfl⟩)
      cases hr
      intro h hmem
      obtain ⟨qh, hqh, hble⟩ := hhist h hmem
      rw [hfit, hqh]
      exact decide_eq_true hble

/-- Concrete value of the fitness of `paletteB` (monotone white
background) on the flat environment. -/
theorem evalB_flat : evaluatePaletteSolution flatEnv primary0 paletteB = .fin (13/2) := by
  norm_num [evaluatePaletteSolution, flatEnv, paletteB, primary0, mkColor,
    getContrastRatio, rewardHarmony, minPairwiseDeltaE, ltPairs, finalCheck,
    JsVal.div, JsVal.add, JsVal.mul, JsVal.min, JsVal.max, JsVal.sub, JsVal.neg,
    JsVal.lt, JsVal.gt, JsVal.isNaNB, JsVal.isFiniteB]

/-- A trivial crossover decision stream (all coins fixed). -/
def cd0 : CrossDecisions := ⟨0, fun _ => false, 0, 0, fun _ => 0, fun _ => 0⟩

/-- A trivial mutation decision stream (no gene ever mutates). -/
def md0 : MutDecisions :=
  ⟨fun _ => 100, fun _ => 0, fun _ => 0, fun _ => 0, fun _ => 0, fun _ => 0, fun _ => 0⟩

/-- A trivial genetic-algorithm decision stream. -/
def gad0 : GADecisions := ⟨fun _ => (0, 0), fun _ => ⟨cd0, md0, md0⟩⟩

/-- C6: for every run of `simulatedAnnealingOptimization` and every run
of `geneticCrossoverOptimization`, the returned best fitness is `>=`
every fitness value appearing in the returned fitness history (for the
GA, every entry of every per-generation fitness vector). -/
theorem best_is_best :
    (∀ (env : ColorEnv) (primary : IColor) (init : List IColor)
      (maxIterations : ℕ) (T0 coolingRate minTemperature : ℚ) (step : ℤ)
      (decisions : ℕ → SADecision) (r : SAResult),
      simulatedAnnealingOptimization env primary init maxIterations T0
        coolingRate minTemperature step decisions = .ok r →
      ∀ h ∈ r.fitnessHistory, JsVal.ge r.fitness h = true) ∧
    (∀ (env : ColorEnv) (primary : IColor) (initPop : List (List IColor))
      (maxIterations : ℕ) (crossoverProbability mutationProbability : ℚ)
      (mutationAmount : ℤ) (thresholdFitness : ℚ) (op : CrossoverOperation)
      (elitismCount : ℕ) (decisions : ℕ → GADecisions) (r : GAResult),
      geneticCrossoverOptimization env primary initPop maxIterations
        crossoverProbability mutationProbability mutationAmount
        thresholdFitness op elitismCount decisions = .ok r →
      ∀ gen ∈ r.fitnessHistory, ∀ f ∈ gen, JsVal.ge r.bestFitness f = true) :=
  ⟨fun env primary init mi T0 cr mt st ds r hr =>
      sa_best_ge env primary init mi T0 cr mt st ds r hr,
    fun env primary ip mi cp mp ma θ op ec ds r hr =>
      ga_best_ge env primary ip mi cp mp ma θ op ec ds r hr⟩

theorem best_is_best_witness :
    (∀ h ∈ (SAResult.mk paletteA (.fin (17/2)) 0 [.fin (17/2)] [1]).fitnessHistory,
      JsVal.ge (SAResult.mk paletteA (.fin (17/2)) 0 [.fin (17/2)] [1]).fitness h = true) ∧
    (∀ gen ∈ (GAResult.mk [paletteA, paletteB] paletteA (.fin (17/2)) 0 []).fitnessHistory,
      ∀ f ∈ gen,
        JsVal.ge (GAResult.mk [paletteA, paletteB] paletteA (.fin (17/2)) 0 []).bestFitness f = true) := by
  constructor
  · exact best_is_best.1 flatEnv primary0 paletteA 0 1 (1/2) (1/10000) 10
      (fun _ => ⟨0, false⟩) (SAResult.mk paletteA (.fin (17/2)) 0 [.fin (17/2)] [1])
      (by
        have hlen : paletteA.length = 5 := by decide
        norm_num [simulatedAnnealingOptimization, evalA_flat, saLoop,
          JsVal.isFiniteB, hlen])
  · exact best_is_best.2 flatEnv primary0 [paletteA, paletteB] 0 1 1 10 100 .uniform 1
      (fun _ => gad0) (GAResult.mk [paletteA, paletteB] paletteA (.fin (17/2)) 0 [])
      (by norm_num [geneticCrossoverOptimization, gaLoop, initBest, updateBest,
        evalA_flat, evalB_flat, JsVal.isFiniteB, JsVal.lt])

/-- Concrete value of the fitness of `paletteA` on the test environment. -/
theorem evalA_test : evaluatePaletteSolution testEnv primary0 paletteA = .fin (17/2) := by
  norm_num [evaluatePaletteSolution, testEnv, primary0, paletteA, mkColor, testDerived,
    getContrastRatio, rewardHarmony, minPairwiseDeltaE, ltPairs, finalCheck,
    JsVal.div, JsVal.add, JsVal.mul, JsVal.min, JsVal.max, JsVal.sub, JsVal.neg,
    JsVal.lt, JsVal.gt, JsVal.isNaNB, JsVal.isFiniteB]

/-- Concrete value of the fitness of `paletteB` on the test environment. -/
theorem evalB_test : evaluatePaletteSolution testEnv primary0 paletteB = .fin (261/22) := by
  norm_num [evaluatePaletteSolution, testEnv, primary0, paletteB, mkColor, testDerived,
    getContrastRatio, rewardHarmony, minPairwiseDeltaE, ltPairs, finalCheck,
    JsVal.div, JsVal.add, JsVal.mul, JsVal.min, JsVal.max, JsVal.sub, JsVal.neg,
    JsVal.lt, JsVal.gt, JsVal.isNaNB, JsVal.isFiniteB]

set_option maxRecDepth 8192 in
/-- C4 (counterexample): on the legacy `optimizer/genetic-crossover.ts`
variant of `geneticCrossoverOptimization` — one of the claim's own cited
sources — the claim's stopping condition (average finite fitness at or
above `thresholdFitness`, or best-ever fitness at or above
`thresholdFitness * 1.1`, formalized by `gaTermCond`) is true at
generation 0, yet the run does not terminate early: it returns
`iterations = 1 = maxIterations`.  The legacy variant compares the
best-ever fitness against the fixed constant 100, not against
`thresholdFitness * 1.1`. -/
theorem ga_termination_counterexample :
    legacyGeneticCrossoverOptimization testEnv primary0 [paletteA, paletteB] 1 (21/2)
        (fun _ => [paletteA, paletteB]) =
      .ok ⟨[paletteB, paletteA], paletteB, .fin (261/22), 1,
        [[.fin (17/2), .fin (261/22)]]⟩ ∧
    gaTermCond (21/2) (updBestVal [.fin (17/2), .fin (261/22)] .negInf)
      [.fin (17/2), .fin (261/22)] = true := by
  constructor
  · norm_num [legacyGeneticCrossoverOptimization, legacyGaLoop, legacyGaTermCond,
      legacyCurrentBest, evalA_test, evalB_test, List.headI, List.getD, List.zip,
      JsVal.gt, JsVal.lt, JsVal.ge, JsVal.le, JsVal.div, JsVal.add,
      JsVal.isFiniteB]
  · norm_num [gaTermCond, gaAvgFitness, updBestVal, JsVal.isFiniteB, JsVal.ge,
      JsVal.le, JsVal.lt, JsVal.gt, JsVal.div, JsVal.add]

/-- The best-ever update's fitness only depends on the fitness values:
`updateBest` projects to `updBestVal`. -/
theorem updateBest_fitness_eq : ∀ (pop : List Individual) (b : Individual),
    (updateBest pop b).fitness = updBestVal (pop.map (fun ind => ind.fitness)) b.fitness := by
  intro pop
  induction pop with
  | nil => intro b; rfl
  | cons i rest ih =>
    intro b
    have h1 : updateBest (i :: rest) b =
        updateBest rest
          (if JsVal.isFiniteB i.fitness && JsVal.lt b.fitness i.fitness then i else b) := rfl
    have h2 : updBestVal ((i :: rest).map (fun ind => ind.fitness)) b.fitness =
        updBestVal (rest.map (fun ind => ind.fitness))
          (if JsVal.isFiniteB i.fitness && JsVal.lt b.fitness i.fitness
            then i.fitness else b.fitness) := rfl
    rw [h1, h2, ih, apply_ite (fun ind : Individual => ind.fitness)]

/-- The claim's per-generation stopping condition, reconstructed from the
returned history: the best-ever fitness through generation `k` (seeded
with the initial scan) and generation `k`'s recorded fitness vector fed
to the termination check. -/
def gaCondAt (thresholdFitness : ℚ) (b0 : JsVal) (hist : List (List JsVal)) (k : ℕ) : Bool :=
  gaTermCond thresholdFitness (bestThroughPrefix b0 (hist.take (k + 1))) (hist.getD k [])

/-- `gaCondAt` over an extended history agrees with the original on
recorded generations. -/
theorem gaCondAt_append (θ : ℚ) (b0 : JsVal) (hist extra : List (List JsVal))
    (k : ℕ) (hk : k < hist.length) :
    gaCondAt θ b0 (hist ++ extra) k = gaCondAt θ b0 hist k := by
  unfold gaCondAt
  rw [List.take_append_of_le_length (by omega), List.getD_append _ _ _ _ hk]

/-- Folding one more generation into the reconstructed best-ever value. -/
theorem bestThroughPrefix_append (b0 : JsVal) (hist : List (List JsVal))
    (evals : List JsVal) :
    bestThroughPrefix b0 (hist ++ [evals]) = updBestVal evals (bestThroughPrefix b0 hist) := by
  unfold bestThroughPrefix
  rw [List.foldl_append]
  rfl

/-- The generation loop's exact termination behaviour: starting from a
state whose best fitness is the reconstructed best through the recorded
history, with one history entry per past iteration and no recorded
generation satisfying the stopping condition, the loop either stops
early — at the unique first recorded generation satisfying the stopping
condition — or exhausts its fuel with no recorded generation satisfying
it. -/
theorem gaLoop_term_spec (env : ColorEnv) (primary : IColor) (op : CrossoverOperation)
    (cp mp : ℚ) (ma : ℤ) (θ : ℚ) (ec ps : ℕ) (ds : ℕ → GADecisions) (b0 : JsVal) :
    ∀ (fuel iteration : ℕ) (pop : List Individual) (best : Individual)
      (hist : List (List JsVal)),
      best.fitness = bestThroughPrefix b0 hist →
      hist.length = iteration →
      (∀ j, j < hist.length → gaCondAt θ b0 hist j = false) →
      ((gaLoop env primary op cp mp ma θ ec ps ds fuel iteration pop best hist).1 <
          iteration + fuel ∧
        (gaLoop env primary op cp mp ma θ ec ps ds fuel iteration pop best hist).2.2.2.length =
          (gaLoop env primary op cp mp ma θ ec ps ds fuel iteration pop best hist).1 + 1 ∧
        gaCondAt θ b0 (gaLoop env primary op cp mp ma θ ec ps ds fuel iteration pop best hist).2.2.2
          (gaLoop env primary op cp mp ma θ ec ps ds fuel iteration pop best hist).1 = true ∧
        (∀ j, j < (gaLoop env primary op cp mp ma θ ec ps ds fuel iteration pop best hist).1 →
          gaCondAt θ b0 (gaLoop env primary op cp mp ma θ ec ps ds fuel iteration pop best hist).2.2.2 j = false)) ∨
      ((gaLoop env primary op cp mp ma θ ec ps ds fuel iteration pop best hist).1 =
          iteration + fuel ∧
        (gaLoop env primary op cp mp ma θ ec ps ds fuel iteration pop best hist).2.2.2.length =
          (gaLoop env primary op cp mp ma θ ec ps ds fuel iteration pop best hist).1 ∧
        (∀ j, j < (gaLoop env primary op cp mp ma θ ec ps ds fuel iteration pop best hist).2.2.2.length →
          gaCondAt θ b0 (gaLoop env primary op cp mp ma θ ec ps ds fuel iteration pop best hist).2.2.2 j = false)) := by
  intro fuel
  induction fuel with
  | zero =>
    intro iteration pop best hist hbf hlen hprev
    exact Or.inr ⟨rfl, hlen, hprev⟩
  | succ fuel ih =>
    intro iteration pop best hist hbf hlen hprev
    have hcond_eq :
        gaCondAt θ b0 (hist ++ [pop.map (fun ind => ind.fitness)]) iteration =
          gaTermCond θ (updateBest pop best).fitness (pop.map (fun ind => ind.fitness)) := by
      unfold gaCondAt
      have ht : (hist ++ [pop.map (fun ind => ind.fitness)]).take (iteration + 1) =
          hist ++ [pop.map (fun ind => ind.fitness)] := by
        apply List.take_of_length_le
        rw [List.length_append, hlen]
        simp
      have hg : (hist ++ [pop.map (fun ind => ind.fitness)]).getD iteration [] =
          pop.map (fun ind => ind.fitness) := by
        rw [List.getD_append_right _ _ _ _ (le_of_eq hlen), hlen]
        simp [List.getD]
      rw [ht, hg, bestThroughPrefix_append, ← hbf, ← updateBest_fitness_eq]
    simp only [gaLoop]
    by_cases hc : gaTermCond θ (updateBest pop best).fitness
        (pop.map (fun ind => ind.fitness)) = true
    · simp only [hc, if_true]
      left
      refine ⟨?_, ?_, ?_, ?_⟩
      · show iteration < iteration + (fuel + 1)
        omega
      · show (hist ++ [pop.map (fun ind => ind.fitness)]).length = iteration + 1
        rw [List.length_append, hlen]
        rfl
      · show gaCondAt θ b0 (hist ++ [pop.map (fun ind => ind.fitness)]) iteration = true
        rw [hcond_eq]
        exact hc
      · intro j hj
        show gaCondAt θ b0 (hist ++ [pop.map (fun ind => ind.fitness)]) j = false
        have hj' : j < hist.length := by omega
        rw [gaCondAt_append θ b0 hist _ j hj']
        exact hprev j hj'
    · rw [Bool.not_eq_true] at hc
      simp only [hc, Bool.false_eq_true, if_false]
      have hbf' : (updateBest pop best).fitness =
          bestThroughPrefix b0 (hist ++ [pop.map (fun ind => ind.fitness)]) := by
        rw [updateBest_fitness_eq, hbf, bestThroughPrefix_append]
      have hlen' : (hist ++ [pop.map (fun ind => ind.fitness)]).length = iteration + 1 := by
        rw [List.length_append, hlen]
        rfl
      have hprev' : ∀ j, j < (hist ++ [pop.map (fun ind => ind.fitness)]).length →
          gaCondAt θ b0 (hist ++ [pop.map (fun ind => ind.fitness)]) j = false := by
        intro j hj
        rw [hlen'] at hj
        rcases Nat.lt_or_ge j hist.length with hj' | hj'
        · rw [gaCondAt_append θ b0 hist _ j hj']
          exact hprev j hj'
        · have hje : j = iteration := by omega
          rw [hje, hcond_eq]
          exact hc
      rcases ih (iteration + 1)
          (nextGeneration env primary op cp mp ma ec ps pop (ds iteration))
          (updateBest pop best) (hist ++ [pop.map (fun ind => ind.fitness)])
          hbf' hlen' hprev' with ⟨h1, h2, h3, h4⟩ | ⟨h1, h2, h3⟩
      · exact Or.inl ⟨by omega, h2, h3, h4⟩
      · exact Or.inr ⟨by omega, h2, h3⟩

/-- C4 (amended): `geneticCrossoverOptimization` (the
`optimization/algorithms/genetic.ts` implementation) terminates before
reaching `maxIterations` generations exactly when some recorded
generation satisfies the stopping condition — average finite fitness of
the generation at least `thresholdFitness`, or best-ever fitness so far
at least `thresholdFitness * 1.1` (`gaCondAt`, reconstructed from the
returned history).  The legacy `optimizer/genetic-crossover.ts` variant
does *not* obey this rule: it checks the best-ever fitness against the
fixed constant 100 (see `ga_termination_counterexample`). -/
theorem ga_termination_iff (env : ColorEnv) (primary : IColor)
    (initPop : List (List IColor)) (maxIterations : ℕ) (cp mp : ℚ) (ma : ℤ)
    (θ : ℚ) (op : CrossoverOperation) (ec : ℕ) (ds : ℕ → GADecisions)
    (r : GAResult)
    (hr : geneticCrossoverOptimization env primary initPop maxIterations cp mp ma
      θ op ec ds = .ok r) :
    r.iterations < maxIterations ↔
      ∃ k, k < maxIterations ∧ k < r.fitnessHistory.length ∧
        gaCondAt θ (initBestFit env primary initPop) r.fitnessHistory k = true := by
  unfold geneticCrossoverOptimization at hr
  by_cases h2 : initPop.length < 2
  · rw [if_pos h2] at hr
    cases hr
  · rw [if_neg h2] at hr
    dsimp only at hr
    have hspec := gaLoop_term_spec env primary op cp mp ma θ ec initPop.length ds
      (initBestFit env primary initPop) maxIterations 0
      (initPop.map (fun palette => ⟨palette, evaluatePaletteSolution env primary palette⟩))
      (initBest (initPop.map
        (fun palette => ⟨palette, evaluatePaletteSolution env primary palette⟩)))
      [] rfl rfl (by intro j hj; exact absurd hj (Nat.not_lt_zero j))
    cases hr
    dsimp only
    rcases hspec with ⟨h1, h2', h3, h4⟩ | ⟨h1, h2', h3⟩
    · exact Iff.intro (fun _ => ⟨_, by omega, by omega, h3⟩) (fun _ => by omega)
    · constructor
      · intro hlt
        exact absurd hlt (by omega)
      · rintro ⟨k, hk1, hk2, hk3⟩
        rw [h3 k hk2] at hk3
        exact absurd hk3 (by decide)

set_option maxRecDepth 8192 in
theorem ga_termination_iff_witness :
    (GAResult.mk [paletteA, paletteB] paletteA (.fin (17/2)) 0
        [[.fin (17/2), .fin (13/2)]]).iterations < 1 ↔
      ∃ k, k < 1 ∧
        k < (GAResult.mk [paletteA, paletteB] paletteA (.fin (17/2)) 0
          [[.fin (17/2), .fin (13/2)]]).fitnessHistory.length ∧
        gaCondAt 0 (initBestFit flatEnv primary0 [paletteA, paletteB])
          (GAResult.mk [paletteA, paletteB] paletteA (.fin (17/2)) 0
            [[.fin (17/2), .fin (13/2)]]).fitnessHistory k = true :=
  ga_termination_iff flatEnv primary0 [paletteA, paletteB] 1 1 1 10 0 .uniform 1
    (fun _ => gad0)
    (GAResult.mk [paletteA, paletteB] paletteA (.fin (17/2)) 0
      [[.fin (17/2), .fin (13/2)]])
    (by norm_num [geneticCrossoverOptimization, gaLoop, initBest, updateBest,
      gaTermCond, gaAvgFitness, evalA_flat, evalB_flat, JsVal.isFiniteB,
      JsVal.lt, JsVal.ge, JsVal.le, JsVal.div, JsVal.add])
